import Mathlib

/-!
Verification of the c4-rust code generator and virtual machine.

This development is a shallow embedding of `src/codegen/mod.rs` and
`src/vm/mod.rs`.  Pure Rust functions become Lean functions; the mutable
state threaded through the generator (`instructions`, `symbol_table`,
`next_offset`, `patches`) becomes an explicit `GenState` record; Rust
panics become `Except.error` (compile time) or `Option.none` (run time).
The `HashMap<String, usize>` symbol table is modelled as an association
list with insert-at-front, which has the same lookup-after-insert
behaviour.  `i64` values are modelled as `Int`; the `as usize` casts are
modelled exactly as reduction modulo `2 ^ 64`.
-/

/-- Instruction set of the VM, from `enum Instruction` in `src/vm/mod.rs`. -/
inductive Instruction where
  | IMM (n : Int)
  | PSH
  | ADD
  | SUB
  | MUL
  | DIV
  | MOD
  | JMP (t : Nat)
  | BZ (t : Nat)
  | BNZ (t : Nat)
  | JSR (t : Nat)
  | ENT (n : Nat)
  | ADJ (n : Nat)
  | LEV
  | LEA (off : Nat)
  | LI
  | LC
  | SI
  | SC
  | EXIT
  | MALC
  | FREE
  | MSET
  | MCMP
  | OPEN
  | READ
  | CLOS
  | EQ
  | LT
  | GT
  | PrintfStr (s : String)
  deriving Repr, DecidableEq

/-- Expression nodes, from `enum Expr` in `src/codegen/mod.rs`. -/
inductive Expr where
  | Number (n : Int)
  | Variable (name : String)
  | Add (l r : Expr)
  | Sub (l r : Expr)
  | Mul (l r : Expr)
  | Div (l r : Expr)
  | Mod (l r : Expr)
  | Equal (l r : Expr)
  | Less (l r : Expr)
  | Greater (l r : Expr)
  | Call (name : String) (args : List Expr)
  | Var (name : String)
  deriving Repr

/-- Statement nodes, from `enum ASTNode` in `src/codegen/mod.rs`. -/
inductive ASTNode where
  | Return (e : Expr)
  | If (condition : Expr) (thenBranch : ASTNode) (elseBranch : Option ASTNode)
  | While (condition : Expr) (body : ASTNode)
  | Sequence (stmts : List ASTNode)
  | Declaration (name : String) (e : Expr)
  | Assignment (name : String) (e : Expr)
  | FunctionDef (name : String) (params : List String) (body : ASTNode)
  | Print (s : String)
  deriving Repr

/-- The four mutable generator values threaded through
`generate_instructions_inner` in `src/codegen/mod.rs`:
the emitted instruction list, the symbol table (name to slot offset),
the next free local slot, and the patch records (instruction index
awaiting an address, callee name). -/
structure GenState where
  instructions : List Instruction
  symbolTable : List (String × Nat)
  nextOffset : Nat
  patches : List (Nat × String)
  deriving Repr, DecidableEq

mutual

/-- From `emit_expr` in `src/codegen/mod.rs`.  Takes the current
instruction list, the (read-only) symbol table and the patch list;
returns the extended instruction and patch lists, or the panic message. -/
def emit_expr : Expr → List Instruction → List (String × Nat) →
    List (Nat × String) → Except String (List Instruction × List (Nat × String))
  | .Number n, instrs, _, ps => .ok (instrs ++ [.IMM n], ps)
  | .Add l r, instrs, tbl, ps =>
    match emit_expr l instrs tbl ps with
    | .error msg => .error msg
    | .ok (i1, p1) =>
      match emit_expr r i1 tbl p1 with
      | .error msg => .error msg
      | .ok (i2, p2) => .ok (i2 ++ [.ADD], p2)
  | .Sub l r, instrs, tbl, ps =>
    match emit_expr l instrs tbl ps with
    | .error msg => .error msg
    | .ok (i1, p1) =>
      match emit_expr r i1 tbl p1 with
      | .error msg => .error msg
      | .ok (i2, p2) => .ok (i2 ++ [.SUB], p2)
  | .Mul l r, instrs, tbl, ps =>
    match emit_expr l instrs tbl ps with
    | .error msg => .error msg
    | .ok (i1, p1) =>
      match emit_expr r i1 tbl p1 with
      | .error msg => .error msg
      | .ok (i2, p2) => .ok (i2 ++ [.MUL], p2)
  | .Div l r, instrs, tbl, ps =>
    match emit_expr l instrs tbl ps with
    | .error msg => .error msg
    | .ok (i1, p1) =>
      match emit_expr r i1 tbl p1 with
      | .error msg => .error msg
      | .ok (i2, p2) => .ok (i2 ++ [.DIV], p2)
  | .Mod l r, instrs, tbl, ps =>
    match emit_expr l instrs tbl ps with
    | .error msg => .error msg
    | .ok (i1, p1) =>
      match emit_expr r i1 tbl p1 with
      | .error msg => .error msg
      | .ok (i2, p2) => .ok (i2 ++ [.MOD], p2)
  | .Equal l r, instrs, tbl, ps =>
    match emit_expr l instrs tbl ps with
    | .error msg => .error msg
    | .ok (i1, p1) =>
      match emit_expr r i1 tbl p1 with
      | .error msg => .error msg
      | .ok (i2, p2) => .ok (i2 ++ [.EQ], p2)
  | .Less l r, instrs, tbl, ps =>
    match emit_expr l instrs tbl ps with
    | .error msg => .error msg
    | .ok (i1, p1) =>
      match emit_expr r i1 tbl p1 with
      | .error msg => .error msg
      | .ok (i2, p2) => .ok (i2 ++ [.LT], p2)
  | .Greater l r, instrs, tbl, ps =>
    match emit_expr l instrs tbl ps with
    | .error msg => .error msg
    | .ok (i1, p1) =>
      match emit_expr r i1 tbl p1 with
      | .error msg => .error msg
      | .ok (i2, p2) => .ok (i2 ++ [.GT], p2)
  | .Variable name, instrs, tbl, ps =>
    match tbl.lookup name with
    | some off => .ok (instrs ++ [.LEA off, .LI], ps)
    | none => .error ("Use of undeclared variable: " ++ name)
  | .Call funcName args, instrs, tbl, ps =>
    match emitCallArgs args instrs tbl ps with
    | .error msg => .error msg
    | .ok (i1, p1) => .ok (i1 ++ [.JSR 9999], p1 ++ [(i1.length, funcName)])
  | .Var name, instrs, tbl, ps =>
    match tbl.lookup name with
    | some off => .ok (instrs ++ [.LEA off, .LI], ps)
    | none => .error ("Use of undeclared variable: " ++ name)

/-- The argument-emission loop inside the `Expr::Call` arm of `emit_expr`. -/
def emitCallArgs : List Expr → List Instruction → List (String × Nat) →
    List (Nat × String) → Except String (List Instruction × List (Nat × String))
  | [], instrs, _, ps => .ok (instrs, ps)
  | a :: rest, instrs, tbl, ps =>
    match emit_expr a instrs tbl ps with
    | .error msg => .error msg
    | .ok (i1, p1) => emitCallArgs rest i1 tbl p1

end

mutual

/-- From `generate_instructions_inner` in `src/codegen/mod.rs`. -/
def generate_instructions_inner : ASTNode → GenState → Except String GenState
  | .Return e, g =>
    match emit_expr e g.instructions g.symbolTable g.patches with
    | .error msg => .error msg
    | .ok (i1, p1) =>
      .ok { g with instructions := i1 ++ [.PSH, .EXIT], patches := p1 }
  | .Print s, g =>
    .ok { g with instructions := g.instructions ++ [.PrintfStr s] }
  | .If c t none, g =>
    match emit_expr c g.instructions g.symbolTable g.patches with
    | .error msg => .error msg
    | .ok (i1, p1) =>
      let jumpFalseIndex := i1.length
      match generate_instructions_inner t
          { g with instructions := i1 ++ [.BZ 9999], patches := p1 } with
      | .error msg => .error msg
      | .ok g2 =>
        let afterThen := g2.instructions.length
        .ok { g2 with instructions := g2.instructions.set jumpFalseIndex (.BZ afterThen) }
  | .If c t (some eb), g =>
    match emit_expr c g.instructions g.symbolTable g.patches with
    | .error msg => .error msg
    | .ok (i1, p1) =>
      let jumpFalseIndex := i1.length
      match generate_instructions_inner t
          { g with instructions := i1 ++ [.BZ 9999], patches := p1 } with
      | .error msg => .error msg
      | .ok g2 =>
        let jumpOverElseIndex := g2.instructions.length
        let elseStart := g2.instructions.length + 1
        match generate_instructions_inner eb
            { g2 with instructions := g2.instructions ++ [.JMP 9999] } with
        | .error msg => .error msg
        | .ok g3 =>
          let afterElse := g3.instructions.length
          let i3 := (g3.instructions.set jumpFalseIndex (.BZ elseStart)).set
            jumpOverElseIndex (.JMP afterElse)
          .ok { g3 with instructions := i3 }
  | .While c b, g =>
    let loopStart := g.instructions.length
    match emit_expr c g.instructions g.symbolTable g.patches with
    | .error msg => .error msg
    | .ok (i1, p1) =>
      let jumpIfFalseIndex := i1.length
      match generate_instructions_inner b
          { g with instructions := i1 ++ [.BZ 9999], patches := p1 } with
      | .error msg => .error msg
      | .ok g2 =>
        let i2 := g2.instructions ++ [.JMP loopStart]
        let loopEnd := i2.length
        .ok { g2 with instructions := i2.set jumpIfFalseIndex (.BZ loopEnd) }
  | .Sequence stmts, g => generate_instructions_seq stmts g
  | .Declaration name e, g =>
    let off := g.nextOffset
    match emit_expr e (g.instructions ++ [.LEA off]) ((name, off) :: g.symbolTable)
        g.patches with
    | .error msg => .error msg
    | .ok (i1, p1) =>
      .ok { instructions := i1 ++ [.SI],
            symbolTable := (name, off) :: g.symbolTable,
            nextOffset := off + 1,
            patches := p1 }
  | .Assignment name e, g =>
    match g.symbolTable.lookup name with
    | some off =>
      match emit_expr e (g.instructions ++ [.LEA off]) g.symbolTable g.patches with
      | .error msg => .error msg
      | .ok (i1, p1) => .ok { g with instructions := i1 ++ [.SI], patches := p1 }
    | none => .error ("Assignment to undeclared variable: " ++ name)
  | .FunctionDef _ params body, g =>
    generate_instructions_inner body
      { g with
        symbolTable := params.enum.foldl (fun t pi => (pi.2, pi.1) :: t) [],
        nextOffset := params.length }

/-- The statement loop inside the `ASTNode::Sequence` arm of
`generate_instructions_inner`. -/
def generate_instructions_seq : List ASTNode → GenState → Except String GenState
  | [], g => .ok g
  | s :: rest, g =>
    match generate_instructions_inner s g with
    | .error msg => .error msg
    | .ok g1 => generate_instructions_seq rest g1

end

/-- The function-address table built in `generate_instructions`
(`src/codegen/mod.rs` line 65).  It is created empty and never filled in:
no arm of the generator records a function entry address. -/
def function_addresses : List (String × Nat) := []

/-- The patch-resolution loop of `generate_instructions`
(`src/codegen/mod.rs` lines 66-72). -/
def resolvePatches : List (Nat × String) → List Instruction →
    Except String (List Instruction)
  | [], instrs => .ok instrs
  | (idx, name) :: rest, instrs =>
    match function_addresses.lookup name with
    | some addr => resolvePatches rest (instrs.set idx (.JSR addr))
    | none => .error ("Unresolved call to " ++ name)

/-- The `matches!(n, ASTNode::FunctionDef { .. })` test in
`generate_instructions`. -/
def isFunctionDef : ASTNode → Bool
  | .FunctionDef _ _ _ => true
  | _ => false

/-- The main body of `generate_instructions` past the all-functions early
return: phase 1 starting from `[ENT 0]`, the frame-size rewrite of
instruction 0, then patch resolution. -/
def generateMain (ast : ASTNode) : Except String (List Instruction) :=
  match generate_instructions_inner ast
      { instructions := [.ENT 0], symbolTable := [], nextOffset := 0, patches := [] } with
  | .error msg => .error msg
  | .ok g => resolvePatches g.patches (g.instructions.set 0 (.ENT g.nextOffset))

/-- From `generate_instructions` in `src/codegen/mod.rs`. -/
def generate_instructions (ast : ASTNode) : Except String (List Instruction) :=
  if (match ast with
      | .Sequence nodes => nodes.all isFunctionDef
      | _ => false) then
    .ok [.IMM 0, .EXIT]
  else generateMain ast

/-- VM state, from `struct VM` in `src/vm/mod.rs`.  The operand stack is
listed bottom first (index 0 is the bottom, as in the Rust `Vec`).  The
`result` field records what the `EXIT` arm reports: `none` while running,
`some (some v)` for "exited with value v", `some none` for "exited:
stack is empty".  Console output and the trace flag are not modelled. -/
structure VMState where
  stack : List Int
  pc : Nat
  bp : Nat
  program : List Instruction
  running : Bool
  result : Option (Option Int)
  deriving Repr, DecidableEq

/-- From `VM::new` in `src/vm/mod.rs`. -/
def VM_new (program : List Instruction) : VMState :=
  { stack := [], pc := 0, bp := 0, program := program, running := true, result := none }

/-- The `as usize` cast applied to an `i64`: reduction modulo `2 ^ 64`. -/
def usizeOf (v : Int) : Nat := (v % (2 ^ 64 : Int)).toNat

/-- `self.stack.pop()` ignored `n` times (used by `ADJ`, `MSET`, ...):
drops up to `n` values off the top, silently stopping at an empty stack. -/
def adjDrop (n : Nat) (st : List Int) : List Int := st.take (st.length - n)

/-- `self.stack.pop().unwrap()`: the popped top together with the rest,
or `none` (panic) on an empty stack. -/
def pop1 (st : List Int) : Option (List Int × Int) :=
  match st.getLast? with
  | some v => some (st.dropLast, v)
  | none => none

/-- Two unwrapped pops: first `b` (the top), then `a`. -/
def pop2 (st : List Int) : Option (List Int × Int × Int) :=
  match pop1 st with
  | some (st1, b) =>
    match pop1 st1 with
    | some (st2, a) => some (st2, a, b)
    | none => none
  | none => none

/-- Checked `i64` arithmetic: the result when it lies in
`[-2 ^ 63, 2 ^ 63)`, `none` on overflow — the arithmetic-overflow panic
of the checked (default, debug-profile) builds the crate's tests and
runs use. -/
def i64Checked (v : Int) : Option Int :=
  if -(2 ^ 63) ≤ v ∧ v < 2 ^ 63 then some v else none

/-- One iteration of the fetch-dispatch loop of `VM::run` in
`src/vm/mod.rs`, for a state that is still running.  `none` is a panic:
program counter out of range, stack underflow on an unwrapped pop,
out-of-range stack indexing, division by zero, arithmetic overflow
(`i64` add/sub/mul overflow panics under the checked arithmetic of the
default debug profile; `i64` MIN / -1 and MIN % -1 panic in every
profile), or the out-of-bounds second `remove(0)` in the `EXIT` arm. -/
def step (s : VMState) : Option VMState :=
  if s.running = false then none
  else
    match s.program[s.pc]? with
    | none => none
    | some instr =>
      match instr with
      | .IMM v => some { s with stack := s.stack ++ [v], pc := s.pc + 1 }
      | .PSH =>
        match s.stack.getLast? with
        | some top => some { s with stack := s.stack ++ [top], pc := s.pc + 1 }
        | none => none
      | .ADD =>
        match pop2 s.stack with
        | some (st, a, b) =>
          match i64Checked (a + b) with
          | some r => some { s with stack := st ++ [r], pc := s.pc + 1 }
          | none => none
        | none => none
      | .SUB =>
        match pop2 s.stack with
        | some (st, a, b) =>
          match i64Checked (a - b) with
          | some r => some { s with stack := st ++ [r], pc := s.pc + 1 }
          | none => none
        | none => none
      | .MUL =>
        match pop2 s.stack with
        | some (st, a, b) =>
          match i64Checked (a * b) with
          | some r => some { s with stack := st ++ [r], pc := s.pc + 1 }
          | none => none
        | none => none
      | .DIV =>
        match pop2 s.stack with
        | some (st, a, b) =>
          if b = 0 then none
          else if a = -(2 ^ 63) ∧ b = -1 then none
          else some { s with stack := st ++ [a.tdiv b], pc := s.pc + 1 }
        | none => none
      | .MOD =>
        match pop2 s.stack with
        | some (st, a, b) =>
          if b = 0 then none
          else if a = -(2 ^ 63) ∧ b = -1 then none
          else some { s with stack := st ++ [a.tmod b], pc := s.pc + 1 }
        | none => none
      | .JMP t => some { s with pc := t }
      | .BZ t =>
        match pop1 s.stack with
        | some (st, c) =>
          if c = 0 then some { s with stack := st, pc := t }
          else some { s with stack := st, pc := s.pc + 1 }
        | none => none
      | .BNZ t =>
        match pop1 s.stack with
        | some (st, c) =>
          if c ≠ 0 then some { s with stack := st, pc := t }
          else some { s with stack := st, pc := s.pc + 1 }
        | none => none
      | .JSR t => some { s with stack := s.stack ++ [Int.ofNat (s.pc + 1)], pc := t }
      | .ENT n =>
        some { s with
               stack := s.stack ++ Int.ofNat s.bp :: List.replicate n 0,
               bp := s.stack.length + 1,
               pc := s.pc + 1 }
      | .ADJ n => some { s with stack := adjDrop n s.stack, pc := s.pc + 1 }
      | .LEV =>
        if s.bp = 0 then none
        else
          match s.stack[s.bp - 1]? with
          | none => none
          | some oldBp =>
            match pop1 (s.stack.take (s.bp - 1)) with
            | none => none
            | some (st2, ret) =>
              some { s with stack := st2, bp := usizeOf oldBp, pc := usizeOf ret }
      | .LEA off =>
        some { s with stack := s.stack ++ [Int.ofNat (s.bp + off)], pc := s.pc + 1 }
      | .LI =>
        match pop1 s.stack with
        | some (st, addr) =>
          match st[usizeOf addr]? with
          | some v => some { s with stack := st ++ [v], pc := s.pc + 1 }
          | none => none
        | none => none
      | .LC =>
        match pop1 s.stack with
        | some (st, addr) =>
          match st[usizeOf addr]? with
          | some v => some { s with stack := st ++ [Int.land v 255], pc := s.pc + 1 }
          | none => none
        | none => none
      | .SI =>
        match pop2 s.stack with
        | some (st2, addr, val) =>
          if usizeOf addr < st2.length then
            some { s with stack := st2.set (usizeOf addr) val, pc := s.pc + 1 }
          else none
        | none => none
      | .SC =>
        match pop2 s.stack with
        | some (st2, addr, val) =>
          if usizeOf addr < st2.length then
            some { s with stack := st2.set (usizeOf addr) (Int.land val 255), pc := s.pc + 1 }
          else none
        | none => none
      | .EXIT =>
        match
          (match s.program.head? with
           | some (.ENT _) =>
             match s.stack with
             | [] => some s.stack
             | [_] => none
             | _ :: _ :: rest => some rest
           | _ => some s.stack) with
        | none => none
        | some st =>
          some { s with
                 stack := st,
                 result := some st.getLast?,
                 running := false,
                 pc := s.pc + 1 }
      | .PrintfStr _ => some { s with pc := s.pc + 1 }
      | .MALC =>
        match pop2 s.stack with
        | some (st, _, _) => some { s with stack := st ++ [0, 4096], pc := s.pc + 1 }
        | none => none
      | .FREE => some { s with stack := adjDrop 1 s.stack, pc := s.pc + 1 }
      | .MSET => some { s with stack := adjDrop 3 s.stack, pc := s.pc + 1 }
      | .MCMP => some { s with stack := adjDrop 3 s.stack ++ [0], pc := s.pc + 1 }
      | .OPEN => some { s with stack := adjDrop 2 s.stack ++ [3], pc := s.pc + 1 }
      | .READ => some { s with stack := adjDrop 3 s.stack ++ [10], pc := s.pc + 1 }
      | .CLOS => some { s with stack := adjDrop 1 s.stack ++ [0], pc := s.pc + 1 }
      | .EQ =>
        match pop2 s.stack with
        | some (st, a, b) =>
          some { s with stack := st ++ [if a = b then 1 else 0], pc := s.pc + 1 }
        | none => none
      | .LT =>
        match pop2 s.stack with
        | some (st, a, b) =>
          some { s with stack := st ++ [if a < b then 1 else 0], pc := s.pc + 1 }
        | none => none
      | .GT =>
        match pop2 s.stack with
        | some (st, a, b) =>
          some { s with stack := st ++ [if b < a then 1 else 0], pc := s.pc + 1 }
        | none => none

/-- `n` iterations of the dispatch loop; `none` if any of them panics. -/
def execN : Nat → VMState → Option VMState
  | 0, s => some s
  | n + 1, s =>
    match step s with
    | none => none
    | some s1 => execN n s1

/-- A running state in the middle of an execution, with no result yet. -/
def midState (st : List Int) (p : Nat) (b : Nat) (P : List Instruction) : VMState :=
  { stack := st, pc := p, bp := b, program := P, running := true, result := none }

deriving instance DecidableEq for Except

/-- Expressions built only from integer literals and the five arithmetic
operators: the class quantified over by the spec's arithmetic-correctness
property. -/
def isArith : Expr → Bool
  | .Number _ => true
  | .Add l r => isArith l && isArith r
  | .Sub l r => isArith l && isArith r
  | .Mul l r => isArith l && isArith r
  | .Div l r => isArith l && isArith r
  | .Mod l r => isArith l && isArith r
  | _ => false

/-- Modelled from the spec: standard signed 64-bit integer evaluation,
with integer division truncating toward zero and remainder following
truncating division, and comparisons yielding `1`/`0`.  `none` wherever
the 64-bit evaluation is undefined: a zero divisor, `i64` overflow of
add/sub/mul, the division overflows MIN / -1 and MIN % -1, and the
variable/call forms the spec's property excludes. -/
def specEval : Expr → Option Int
  | .Number n => some n
  | .Add l r =>
    match specEval l, specEval r with
    | some a, some b => i64Checked (a + b)
    | _, _ => none
  | .Sub l r =>
    match specEval l, specEval r with
    | some a, some b => i64Checked (a - b)
    | _, _ => none
  | .Mul l r =>
    match specEval l, specEval r with
    | some a, some b => i64Checked (a * b)
    | _, _ => none
  | .Div l r =>
    match specEval l, specEval r with
    | some a, some b =>
      if b = 0 then none
      else if a = -(2 ^ 63) ∧ b = -1 then none
      else some (a.tdiv b)
    | _, _ => none
  | .Mod l r =>
    match specEval l, specEval r with
    | some a, some b =>
      if b = 0 then none
      else if a = -(2 ^ 63) ∧ b = -1 then none
      else some (a.tmod b)
    | _, _ => none
  | .Equal l r =>
    match specEval l, specEval r with
    | some a, some b => some (if a = b then 1 else 0)
    | _, _ => none
  | .Less l r =>
    match specEval l, specEval r with
    | some a, some b => some (if a < b then 1 else 0)
    | _, _ => none
  | .Greater l r =>
    match specEval l, specEval r with
    | some a, some b => some (if b < a then 1 else 0)
    | _, _ => none
  | _ => none

/-- Call-free expressions: literals, variable reads and the eight binary
operators.  Their emitted code is straight-line. -/
def varExpr : Expr → Bool
  | .Number _ => true
  | .Variable _ => true
  | .Var _ => true
  | .Add l r => varExpr l && varExpr r
  | .Sub l r => varExpr l && varExpr r
  | .Mul l r => varExpr l && varExpr r
  | .Div l r => varExpr l && varExpr r
  | .Mod l r => varExpr l && varExpr r
  | .Equal l r => varExpr l && varExpr r
  | .Less l r => varExpr l && varExpr r
  | .Greater l r => varExpr l && varExpr r
  | .Call _ _ => false

/-- Denotation of a call-free expression against a symbol table, an
operand stack and a frame base: the value its emitted code pushes.  A
variable bound to slot `off` denotes `stack[bp + off]`; positions at or
above `2 ^ 64` are unreachable through the VM's address arithmetic and
denote `none`. -/
def evalV (tbl : List (String × Nat)) (st : List Int) (bp : Nat) : Expr → Option Int
  | .Number n => some n
  | .Variable name =>
    match tbl.lookup name with
    | some off => if bp + off < 2 ^ 64 then st[bp + off]? else none
    | none => none
  | .Var name =>
    match tbl.lookup name with
    | some off => if bp + off < 2 ^ 64 then st[bp + off]? else none
    | none => none
  | .Add l r =>
    match evalV tbl st bp l, evalV tbl st bp r with
    | some a, some b => i64Checked (a + b)
    | _, _ => none
  | .Sub l r =>
    match evalV tbl st bp l, evalV tbl st bp r with
    | some a, some b => i64Checked (a - b)
    | _, _ => none
  | .Mul l r =>
    match evalV tbl st bp l, evalV tbl st bp r with
    | some a, some b => i64Checked (a * b)
    | _, _ => none
  | .Div l r =>
    match evalV tbl st bp l, evalV tbl st bp r with
    | some a, some b =>
      if b = 0 then none
      else if a = -(2 ^ 63) ∧ b = -1 then none
      else some (a.tdiv b)
    | _, _ => none
  | .Mod l r =>
    match evalV tbl st bp l, evalV tbl st bp r with
    | some a, some b =>
      if b = 0 then none
      else if a = -(2 ^ 63) ∧ b = -1 then none
      else some (a.tmod b)
    | _, _ => none
  | .Equal l r =>
    match evalV tbl st bp l, evalV tbl st bp r with
    | some a, some b => some (if a = b then 1 else 0)
    | _, _ => none
  | .Less l r =>
    match evalV tbl st bp l, evalV tbl st bp r with
    | some a, some b => some (if a < b then 1 else 0)
    | _, _ => none
  | .Greater l r =>
    match evalV tbl st bp l, evalV tbl st bp r with
    | some a, some b => some (if b < a then 1 else 0)
    | _, _ => none
  | .Call _ _ => none

/-- The instruction list `emit_expr` appends for a call-free expression
under a given symbol table. -/
def vcode (tbl : List (String × Nat)) : Expr → List Instruction
  | .Number n => [.IMM n]
  | .Variable name =>
    match tbl.lookup name with
    | some off => [.LEA off, .LI]
    | none => []
  | .Var name =>
    match tbl.lookup name with
    | some off => [.LEA off, .LI]
    | none => []
  | .Add l r => vcode tbl l ++ vcode tbl r ++ [.ADD]
  | .Sub l r => vcode tbl l ++ vcode tbl r ++ [.SUB]
  | .Mul l r => vcode tbl l ++ vcode tbl r ++ [.MUL]
  | .Div l r => vcode tbl l ++ vcode tbl r ++ [.DIV]
  | .Mod l r => vcode tbl l ++ vcode tbl r ++ [.MOD]
  | .Equal l r => vcode tbl l ++ vcode tbl r ++ [.EQ]
  | .Less l r => vcode tbl l ++ vcode tbl r ++ [.LT]
  | .Greater l r => vcode tbl l ++ vcode tbl r ++ [.GT]
  | .Call _ _ => []

/-- The value a binary arithmetic/comparison opcode computes from the
two popped operands (`none`: not such an opcode, or a zero divisor). -/
def opSem : Instruction → Int → Int → Option Int
  | .ADD, a, b => i64Checked (a + b)
  | .SUB, a, b => i64Checked (a - b)
  | .MUL, a, b => i64Checked (a * b)
  | .DIV, a, b =>
    if b = 0 then none
    else if a = -(2 ^ 63) ∧ b = -1 then none
    else some (a.tdiv b)
  | .MOD, a, b =>
    if b = 0 then none
    else if a = -(2 ^ 63) ∧ b = -1 then none
    else some (a.tmod b)
  | .EQ, a, b => some (if a = b then 1 else 0)
  | .LT, a, b => some (if a < b then 1 else 0)
  | .GT, a, b => some (if b < a then 1 else 0)
  | _, _, _ => none

theorem execN_add (m n : Nat) (s : VMState) :
    execN (m + n) s = (execN m s).bind (execN n) := by
  induction m generalizing s with
  | zero => simp [execN]
  | succ m ih =>
    rw [Nat.succ_add]
    simp only [execN]
    cases step s with
    | none => simp
    | some s1 => simp [ih]

theorem execN_one (s : VMState) : execN 1 s = step s := by
  simp only [execN]
  cases step s <;> simp

theorem fetch_at {α : Type} (P1 : List α) (x : α) (P2 : List α) :
    (P1 ++ x :: P2)[P1.length]? = some x := by
  rw [List.getElem?_append_right (Nat.le_refl _)]
  simp

theorem pop1_concat (st : List Int) (v : Int) : pop1 (st ++ [v]) = some (st, v) := by
  simp [pop1]

theorem pop2_concat (st : List Int) (a b : Int) :
    pop2 (st ++ [a, b]) = some (st, a, b) := by
  have h1 : pop1 (st ++ [a, b]) = some (st ++ [a], b) := by
    have h : st ++ [a, b] = (st ++ [a]) ++ [b] := by simp
    rw [h, pop1_concat]
  simp [pop2, h1, pop1_concat]

theorem set_append_right (l1 l2 : List Instruction) (k : Nat) (a : Instruction) :
    (l1 ++ l2).set (l1.length + k) a = l1 ++ l2.set k a := by
  induction l1 with
  | nil => simp
  | cons x xs ih =>
    simp only [List.cons_append, List.length_cons]
    rw [Nat.add_right_comm xs.length 1 k, List.set_cons_succ, ih]

theorem set_at_append (l1 : List Instruction) (x a : Instruction) (l2 : List Instruction) :
    (l1 ++ x :: l2).set l1.length a = l1 ++ a :: l2 := by
  have h := set_append_right l1 (x :: l2) 0 a
  rw [Nat.add_zero] at h
  rw [h]
  simp

theorem usizeOf_ofNat (m : Nat) (h : m < 2 ^ 64) : usizeOf (Int.ofNat m) = m := by
  have e1 : (m : Int) % ((2 : Int) ^ 64) = (m : Int) :=
    Int.emod_eq_of_lt (by positivity) (by exact_mod_cast h)
  simp only [usizeOf, Int.ofNat_eq_coe, e1]
  simp

/-- Chained emission of two subexpressions followed by one opcode — the
shape of every binary arm of `emit_expr`: if both emissions only append
to the instruction and patch lists, so does the combination. -/
theorem emit_two_extends
    (f g : List Instruction → List (Nat × String) →
      Except String (List Instruction × List (Nat × String)))
    (hf : ∀ i p out, f i p = .ok out → ∃ ti tp, out.1 = i ++ ti ∧ out.2 = p ++ tp)
    (hg : ∀ i p out, g i p = .ok out → ∃ ti tp, out.1 = i ++ ti ∧ out.2 = p ++ tp)
    (op : Instruction) (instrs : List Instruction) (ps : List (Nat × String))
    (out : List Instruction × List (Nat × String))
    (h : (match f instrs ps with
          | .error msg => (.error msg :
              Except String (List Instruction × List (Nat × String)))
          | .ok (i1, p1) =>
            match g i1 p1 with
            | .error msg => .error msg
            | .ok (i2, p2) => Except.ok (i2 ++ [op], p2)) = .ok out) :
    ∃ ti tp, out.1 = instrs ++ ti ∧ out.2 = ps ++ tp := by
  cases hfe : f instrs ps with
  | error msg => rw [hfe] at h; cases h
  | ok r1 =>
    obtain ⟨i1, p1⟩ := r1
    rw [hfe] at h
    dsimp only at h
    cases hge : g i1 p1 with
    | error msg => rw [hge] at h; cases h
    | ok r2 =>
      obtain ⟨i2, p2⟩ := r2
      rw [hge] at h
      dsimp only at h
      cases h
      obtain ⟨t1, q1, e1, e2⟩ := hf _ _ _ hfe
      obtain ⟨t2, q2, e3, e4⟩ := hg _ _ _ hge
      dsimp only at e1 e2 e3 e4
      exact ⟨t1 ++ t2 ++ [op], q1 ++ q2, by simp [e3, e1], by simp [e4, e2]⟩

mutual

/-- `emit_expr` only appends: a successful emission extends the incoming
instruction and patch lists. -/
theorem emit_expr_extends (e : Expr) (instrs : List Instruction)
    (tbl : List (String × Nat)) (ps : List (Nat × String))
    (out : List Instruction × List (Nat × String))
    (h : emit_expr e instrs tbl ps = .ok out) :
    ∃ ti tp, out.1 = instrs ++ ti ∧ out.2 = ps ++ tp :=
  match e with
  | .Number n => by
    simp only [emit_expr] at h
    cases h
    exact ⟨[.IMM n], [], rfl, by simp⟩
  | .Add l r => by
    simp only [emit_expr] at h
    exact emit_two_extends _ _ (fun i p => emit_expr_extends l i tbl p)
      (fun i p => emit_expr_extends r i tbl p) .ADD instrs ps out h
  | .Sub l r => by
    simp only [emit_expr] at h
    exact emit_two_extends _ _ (fun i p => emit_expr_extends l i tbl p)
      (fun i p => emit_expr_extends r i tbl p) .SUB instrs ps out h
  | .Mul l r => by
    simp only [emit_expr] at h
    exact emit_two_extends _ _ (fun i p => emit_expr_extends l i tbl p)
      (fun i p => emit_expr_extends r i tbl p) .MUL instrs ps out h
  | .Div l r => by
    simp only [emit_expr] at h
    exact emit_two_extends _ _ (fun i p => emit_expr_extends l i tbl p)
      (fun i p => emit_expr_extends r i tbl p) .DIV instrs ps out h
  | .Mod l r => by
    simp only [emit_expr] at h
    exact emit_two_extends _ _ (fun i p => emit_expr_extends l i tbl p)
      (fun i p => emit_expr_extends r i tbl p) .MOD instrs ps out h
  | .Equal l r => by
    simp only [emit_expr] at h
    exact emit_two_extends _ _ (fun i p => emit_expr_extends l i tbl p)
      (fun i p => emit_expr_extends r i tbl p) .EQ instrs ps out h
  | .Less l r => by
    simp only [emit_expr] at h
    exact emit_two_extends _ _ (fun i p => emit_expr_extends l i tbl p)
      (fun i p => emit_expr_extends r i tbl p) .LT instrs ps out h
  | .Greater l r => by
    simp only [emit_expr] at h
    exact emit_two_extends _ _ (fun i p => emit_expr_extends l i tbl p)
      (fun i p => emit_expr_extends r i tbl p) .GT instrs ps out h
  | .Variable name => by
    simp only [emit_expr] at h
    cases hlk : tbl.lookup name with
    | some off =>
      rw [hlk] at h
      cases h
      exact ⟨[.LEA off, .LI], [], rfl, by simp⟩
    | none => rw [hlk] at h; cases h
  | .Call funcName args => by
    simp only [emit_expr] at h
    cases hca : emitCallArgs args instrs tbl ps with
    | error msg => rw [hca] at h; cases h
    | ok r1 =>
      obtain ⟨i1, p1⟩ := r1
      rw [hca] at h
      dsimp only at h
      cases h
      obtain ⟨t1, q1, e1, e2⟩ := emitCallArgs_extends args instrs tbl ps _ hca
      dsimp only at e1 e2
      exact ⟨t1 ++ [.JSR 9999], q1 ++ [(i1.length, funcName)],
        by simp [e1], by simp [e2]⟩
  | .Var name => by
    simp only [emit_expr] at h
    cases hlk : tbl.lookup name with
    | some off =>
      rw [hlk] at h
      cases h
      exact ⟨[.LEA off, .LI], [], rfl, by simp⟩
    | none => rw [hlk] at h; cases h

/-- The argument-emission loop only appends. -/
theorem emitCallArgs_extends (args : List Expr) (instrs : List Instruction)
    (tbl : List (String × Nat)) (ps : List (Nat × String))
    (out : List Instruction × List (Nat × String))
    (h : emitCallArgs args instrs tbl ps = .ok out) :
    ∃ ti tp, out.1 = instrs ++ ti ∧ out.2 = ps ++ tp :=
  match args with
  | [] => by
    simp only [emitCallArgs] at h
    cases h
    exact ⟨[], [], by simp, by simp⟩
  | a :: rest => by
    simp only [emitCallArgs] at h
    cases hae : emit_expr a instrs tbl ps with
    | error msg => rw [hae] at h; cases h
    | ok r1 =>
      obtain ⟨i1, p1⟩ := r1
      rw [hae] at h
      dsimp only at h
      obtain ⟨t1, q1, e1, e2⟩ := emit_expr_extends a instrs tbl ps _ hae
      obtain ⟨t2, q2, e3, e4⟩ := emitCallArgs_extends rest i1 tbl p1 out h
      dsimp only at e1 e2
      exact ⟨t1 ++ t2, q1 ++ q2, by simp [e3, e1], by simp [e4, e2]⟩

end

theorem set_extends (l1 l2 : List Instruction) (i : Nat) (a : Instruction)
    (hi : l1.length ≤ i) : ∃ t, (l1 ++ l2).set i a = l1 ++ t := by
  obtain ⟨k, rfl⟩ : ∃ k, i = l1.length + k := ⟨i - l1.length, by omega⟩
  exact ⟨l2.set k a, set_append_right l1 l2 k a⟩

mutual

/-- `generate_instructions_inner` only appends to (and patches within)
the region it emits: the incoming instruction list is a prefix of the
outgoing one. -/
theorem genInner_extends (a : ASTNode) (g gout : GenState)
    (h : generate_instructions_inner a g = .ok gout) :
    ∃ t, gout.instructions = g.instructions ++ t :=
  match a with
  | .Return e => by
    simp only [generate_instructions_inner] at h
    cases he : emit_expr e g.instructions g.symbolTable g.patches with
    | error msg => rw [he] at h; cases h
    | ok r1 =>
      obtain ⟨i1, p1⟩ := r1
      rw [he] at h
      dsimp only at h
      cases h
      obtain ⟨t1, q1, e1, _⟩ := emit_expr_extends _ _ _ _ _ he
      dsimp only at e1
      exact ⟨t1 ++ [.PSH, .EXIT], by simp [e1]⟩
  | .Print s => by
    simp only [generate_instructions_inner] at h
    cases h
    exact ⟨[.PrintfStr s], rfl⟩
  | .If c t none => by
    simp only [generate_instructions_inner] at h
    cases he : emit_expr c g.instructions g.symbolTable g.patches with
    | error msg => rw [he] at h; cases h
    | ok r1 =>
      obtain ⟨i1, p1⟩ := r1
      rw [he] at h
      dsimp only at h
      cases hg2 : generate_instructions_inner t
          { g with instructions := i1 ++ [.BZ 9999], patches := p1 } with
      | error msg => rw [hg2] at h; cases h
      | ok g2 =>
        rw [hg2] at h
        dsimp only at h
        cases h
        obtain ⟨t1, q1, e1, _⟩ := emit_expr_extends _ _ _ _ _ he
        dsimp only at e1
        obtain ⟨t2, e3⟩ := genInner_extends t _ _ hg2
        dsimp only at e3
        have hpre : g2.instructions = g.instructions ++ (t1 ++ .BZ 9999 :: t2) := by
          rw [e3, e1]; simp
        dsimp only
        generalize Instruction.BZ g2.instructions.length = v
        rw [hpre]
        exact set_extends g.instructions _ i1.length v (by rw [e1]; simp)
  | .If c t (some eb) => by
    simp only [generate_instructions_inner] at h
    cases he : emit_expr c g.instructions g.symbolTable g.patches with
    | error msg => rw [he] at h; cases h
    | ok r1 =>
      obtain ⟨i1, p1⟩ := r1
      rw [he] at h
      dsimp only at h
      cases hg2 : generate_instructions_inner t
          { g with instructions := i1 ++ [.BZ 9999], patches := p1 } with
      | error msg => rw [hg2] at h; cases h
      | ok g2 =>
        rw [hg2] at h
        dsimp only at h
        cases hg3 : generate_instructions_inner eb
            { g2 with instructions := g2.instructions ++ [.JMP 9999] } with
        | error msg => rw [hg3] at h; cases h
        | ok g3 =>
          rw [hg3] at h
          dsimp only at h
          cases h
          obtain ⟨t1, q1, e1, _⟩ := emit_expr_extends _ _ _ _ _ he
          dsimp only at e1
          obtain ⟨t2, e3⟩ := genInner_extends t _ _ hg2
          dsimp only at e3
          obtain ⟨t3, e5⟩ := genInner_extends eb _ _ hg3
          dsimp only at e5
          have hpre : g3.instructions =
              g.instructions ++ (t1 ++ .BZ 9999 :: (t2 ++ .JMP 9999 :: t3)) := by
            rw [e5, e3, e1]; simp
          dsimp only
          generalize Instruction.BZ (g2.instructions.length + 1) = v1
          generalize Instruction.JMP g3.instructions.length = v2
          rw [hpre]
          obtain ⟨tmid, emid⟩ := set_extends g.instructions _ i1.length v1
            (by rw [e1]; simp)
          rw [emid]
          exact set_extends g.instructions _ g2.instructions.length v2
            (by rw [e3, e1]; simp)
  | .While c b => by
    simp only [generate_instructions_inner] at h
    cases he : emit_expr c g.instructions g.symbolTable g.patches with
    | error msg => rw [he] at h; cases h
    | ok r1 =>
      obtain ⟨i1, p1⟩ := r1
      rw [he] at h
      dsimp only at h
      cases hg2 : generate_instructions_inner b
          { g with instructions := i1 ++ [.BZ 9999], patches := p1 } with
      | error msg => rw [hg2] at h; cases h
      | ok g2 =>
        rw [hg2] at h
        dsimp only at h
        cases h
        obtain ⟨t1, q1, e1, _⟩ := emit_expr_extends _ _ _ _ _ he
        dsimp only at e1
        obtain ⟨t2, e3⟩ := genInner_extends b _ _ hg2
        dsimp only at e3
        have hpre : g2.instructions ++ [.JMP g.instructions.length] =
            g.instructions ++ (t1 ++ .BZ 9999 ::
              (t2 ++ [.JMP g.instructions.length])) := by
          rw [e3, e1]; simp
        dsimp only
        generalize Instruction.BZ (g2.instructions ++
          [Instruction.JMP g.instructions.length]).length = v
        rw [hpre]
        exact set_extends g.instructions _ i1.length v (by rw [e1]; simp)
  | .Sequence stmts => by
    simp only [generate_instructions_inner] at h
    exact genSeq_extends stmts g gout h
  | .Declaration name e => by
    simp only [generate_instructions_inner] at h
    cases he : emit_expr e (g.instructions ++ [.LEA g.nextOffset])
        ((name, g.nextOffset) :: g.symbolTable) g.patches with
    | error msg => rw [he] at h; cases h
    | ok r1 =>
      obtain ⟨i1, p1⟩ := r1
      rw [he] at h
      dsimp only at h
      cases h
      obtain ⟨t1, q1, e1, _⟩ := emit_expr_extends _ _ _ _ _ he
      dsimp only at e1
      exact ⟨.LEA g.nextOffset :: (t1 ++ [.SI]), by simp [e1]⟩
  | .Assignment name e => by
    simp only [generate_instructions_inner] at h
    cases hlk : g.symbolTable.lookup name with
    | none => rw [hlk] at h; cases h
    | some off =>
      rw [hlk] at h
      dsimp only at h
      cases he : emit_expr e (g.instructions ++ [.LEA off]) g.symbolTable g.patches with
      | error msg => rw [he] at h; cases h
      | ok r1 =>
        obtain ⟨i1, p1⟩ := r1
        rw [he] at h
        dsimp only at h
        cases h
        obtain ⟨t1, q1, e1, _⟩ := emit_expr_extends _ _ _ _ _ he
        dsimp only at e1
        exact ⟨.LEA off :: (t1 ++ [.SI]), by simp [e1]⟩
  | .FunctionDef fname params body => by
    simp only [generate_instructions_inner] at h
    obtain ⟨t1, e1⟩ := genInner_extends body _ _ h
    exact ⟨t1, e1⟩

/-- The statement loop of the `Sequence` arm only appends. -/
theorem genSeq_extends (as : List ASTNode) (g gout : GenState)
    (h : generate_instructions_seq as g = .ok gout) :
    ∃ t, gout.instructions = g.instructions ++ t :=
  match as with
  | [] => by
    simp only [generate_instructions_seq] at h
    cases h
    exact ⟨[], by simp⟩
  | s :: rest => by
    simp only [generate_instructions_seq] at h
    cases hs : generate_instructions_inner s g with
    | error msg => rw [hs] at h; cases h
    | ok g1 =>
      rw [hs] at h
      dsimp only at h
      obtain ⟨t1, e1⟩ := genInner_extends s g g1 hs
      obtain ⟨t2, e2⟩ := genSeq_extends rest g1 gout h
      exact ⟨t1 ++ t2, by rw [e2, e1]; simp⟩

end

theorem step_IMM (s : VMState) (n : Int) (hrun : s.running = true)
    (hfetch : s.program[s.pc]? = some (.IMM n)) :
    step s = some { s with stack := s.stack ++ [n], pc := s.pc + 1 } := by
  simp [step, hrun, hfetch]

theorem step_PSH (s : VMState) (st : List Int) (top : Int) (hrun : s.running = true)
    (hfetch : s.program[s.pc]? = some .PSH) (hstack : s.stack = st ++ [top]) :
    step s = some { s with stack := (st ++ [top]) ++ [top], pc := s.pc + 1 } := by
  simp [step, hrun, hfetch, hstack]

theorem step_JMP (s : VMState) (t : Nat) (hrun : s.running = true)
    (hfetch : s.program[s.pc]? = some (.JMP t)) :
    step s = some { s with pc := t } := by
  simp [step, hrun, hfetch]

theorem step_ENT (s : VMState) (n : Nat) (hrun : s.running = true)
    (hfetch : s.program[s.pc]? = some (.ENT n)) :
    step s = some { s with
                    stack := s.stack ++ Int.ofNat s.bp :: List.replicate n 0,
                    bp := s.stack.length + 1,
                    pc := s.pc + 1 } := by
  simp [step, hrun, hfetch]

theorem step_LEA (s : VMState) (off : Nat) (hrun : s.running = true)
    (hfetch : s.program[s.pc]? = some (.LEA off)) :
    step s = some { s with
                    stack := s.stack ++ [Int.ofNat (s.bp + off)],
                    pc := s.pc + 1 } := by
  simp [step, hrun, hfetch]

theorem usizeOf_natCast (m : Nat) (h : m < 2 ^ 64) : usizeOf (m : Int) = m :=
  usizeOf_ofNat m h

theorem step_LI (s : VMState) (st : List Int) (m : Nat) (v : Int)
    (hrun : s.running = true) (hfetch : s.program[s.pc]? = some .LI)
    (hstack : s.stack = st ++ [Int.ofNat m]) (hm : m < 2 ^ 64)
    (hread : st[m]? = some v) :
    step s = some { s with stack := st ++ [v], pc := s.pc + 1 } := by
  simp [step, hrun, hfetch, hstack, pop1_concat, usizeOf_ofNat m hm,
    usizeOf_natCast m hm, hread]

theorem step_BZ_zero (s : VMState) (t : Nat) (st : List Int)
    (hrun : s.running = true) (hfetch : s.program[s.pc]? = some (.BZ t))
    (hstack : s.stack = st ++ [0]) :
    step s = some { s with stack := st, pc := t } := by
  simp [step, hrun, hfetch, hstack, pop1_concat]

theorem step_BZ_nonzero (s : VMState) (t : Nat) (st : List Int) (c : Int)
    (hrun : s.running = true) (hfetch : s.program[s.pc]? = some (.BZ t))
    (hstack : s.stack = st ++ [c]) (hc : c ≠ 0) :
    step s = some { s with stack := st, pc := s.pc + 1 } := by
  simp [step, hrun, hfetch, hstack, pop1_concat, hc]

theorem step_binop (s : VMState) (op : Instruction) (st : List Int) (a b v : Int)
    (hrun : s.running = true) (hfetch : s.program[s.pc]? = some op)
    (hstack : s.stack = st ++ [a, b]) (hsem : opSem op a b = some v) :
    step s = some { s with stack := st ++ [v], pc := s.pc + 1 } := by
  cases op
  case ADD =>
    simp only [opSem] at hsem
    simp [step, hrun, hfetch, hstack, pop2_concat, hsem]
  case SUB =>
    simp only [opSem] at hsem
    simp [step, hrun, hfetch, hstack, pop2_concat, hsem]
  case MUL =>
    simp only [opSem] at hsem
    simp [step, hrun, hfetch, hstack, pop2_concat, hsem]
  case DIV =>
    simp only [opSem] at hsem
    split at hsem
    · cases hsem
    · split at hsem
      · cases hsem
      · cases hsem
        rename_i hb hmin
        simp [step, hrun, hfetch, hstack, pop2_concat, hb, hmin]
        omega
  case MOD =>
    simp only [opSem] at hsem
    split at hsem
    · cases hsem
    · split at hsem
      · cases hsem
      · cases hsem
        rename_i hb hmin
        simp [step, hrun, hfetch, hstack, pop2_concat, hb, hmin]
        omega
  case EQ =>
    simp only [opSem] at hsem
    cases hsem
    simp [step, hrun, hfetch, hstack, pop2_concat]
  case LT =>
    simp only [opSem] at hsem
    cases hsem
    simp [step, hrun, hfetch, hstack, pop2_concat]
  case GT =>
    simp only [opSem] at hsem
    cases hsem
    simp [step, hrun, hfetch, hstack, pop2_concat]
  all_goals simp only [opSem] at hsem
  all_goals exact Option.noConfusion hsem

/-- The code `code` placed anywhere in a program computes `v` on top of
any stack extending `st` (the extension `extra` holds subresults of an
enclosing expression), leaving everything else untouched. -/
def pushesVal (code : List Instruction) (st : List Int) (b : Nat) (v : Int) : Prop :=
  ∀ (P P1 P2 : List Instruction) (extra : List Int) (p : Nat),
    P = P1 ++ code ++ P2 → p = P1.length →
    execN code.length (midState (st ++ extra) p b P) =
      some (midState ((st ++ extra) ++ [v]) (p + code.length) b P)

theorem pushesVal_two (cl cr : List Instruction) (op : Instruction)
    (st : List Int) (b : Nat) (vl vr v : Int)
    (hsem : opSem op vl vr = some v)
    (hl : pushesVal cl st b vl) (hr : pushesVal cr st b vr) :
    pushesVal (cl ++ cr ++ [op]) st b v := by
  intro P P1 P2 extra p hP hp
  have hlen : (cl ++ cr ++ [op]).length = cl.length + (cr.length + 1) := by simp
  rw [hlen, execN_add]
  have h1 := hl P P1 (cr ++ op :: P2) extra p (by rw [hP]; simp) hp
  rw [h1, Option.some_bind, execN_add]
  have h2 := hr P (P1 ++ cl) (op :: P2) (extra ++ [vl]) (p + cl.length)
    (by rw [hP]; simp) (by rw [hp]; simp)
  rw [← List.append_assoc] at h2
  rw [h2, Option.some_bind, execN_one]
  have hfetch2 : P[p + cl.length + cr.length]? = some op := by
    have e1 : P = (P1 ++ cl ++ cr) ++ op :: P2 := by rw [hP]; simp
    have e2 : p + cl.length + cr.length = (P1 ++ cl ++ cr).length := by
      rw [hp]; simp [Nat.add_assoc]
    rw [e1, e2, fetch_at]
  have hstep := step_binop (midState ((st ++ extra) ++ [vl] ++ [vr])
      (p + cl.length + cr.length) b P) op (st ++ extra) vl vr v rfl hfetch2
    (by simp [midState]) hsem
  rw [hstep]
  simp only [midState]
  have harith : p + cl.length + cr.length + 1 = p + (cl.length + (cr.length + 1)) := by
    omega
  rw [harith]

/-- Compiler correctness for call-free expressions: the code `emit_expr`
produces (`vcode`) pushes exactly the expression's denotation. -/
theorem exec_vcode (e : Expr) (he : varExpr e = true) (tbl : List (String × Nat))
    (st : List Int) (b : Nat) (v : Int) (hv : evalV tbl st b e = some v) :
    pushesVal (vcode tbl e) st b v :=
  match e with
  | .Number n => by
    simp only [evalV] at hv
    injection hv with hnv
    subst hnv
    intro P P1 P2 extra p hP hp
    simp only [vcode] at hP ⊢
    have hfetch : P[p]? = some (.IMM n) := by
      rw [hp, hP]
      have := fetch_at P1 (.IMM n) P2
      simpa using this
    simp only [List.length_cons, List.length_nil]
    rw [execN_one, step_IMM _ n rfl hfetch]
    simp [midState]
  | .Variable name => by
    simp only [evalV] at hv
    cases hlk : tbl.lookup name with
    | none => rw [hlk] at hv; cases hv
    | some off =>
      rw [hlk] at hv
      dsimp only at hv
      split at hv
      case isTrue hlt =>
        have hlt2 : b + off < st.length := by
          by_contra hcon
          push_neg at hcon
          rw [List.getElem?_eq_none hcon] at hv
          cases hv
        intro P P1 P2 extra p hP hp
        simp only [vcode, hlk] at hP ⊢
        have hfetch1 : P[p]? = some (.LEA off) := by
          rw [hp, hP]
          have := fetch_at P1 (.LEA off) (.LI :: P2)
          simpa using this
        have hfetch2 : P[p + 1]? = some .LI := by
          have e1 : P = (P1 ++ [Instruction.LEA off]) ++ .LI :: P2 := by
            rw [hP]; simp
          have e2 : p + 1 = (P1 ++ [Instruction.LEA off]).length := by
            rw [hp]; simp
          rw [e1, e2, fetch_at]
        have hread2 : (st ++ extra)[b + off]? = some v := by
          rw [List.getElem?_append, if_pos hlt2]
          exact hv
        simp only [List.length_cons, List.length_nil]
        rw [show (0 : Nat) + 1 + 1 = 1 + 1 from rfl, execN_add, execN_one]
        rw [step_LEA _ off rfl hfetch1, Option.some_bind, execN_one]
        have hstep2 := step_LI (midState ((st ++ extra) ++ [Int.ofNat (b + off)])
            (p + 1) b P) (st ++ extra) (b + off) v rfl hfetch2 (by simp [midState])
          hlt hread2
        simp only [midState] at hstep2 ⊢
        rw [hstep2]
      case isFalse => cases hv
  | .Var name => by
    simp only [evalV] at hv
    cases hlk : tbl.lookup name with
    | none => rw [hlk] at hv; cases hv
    | some off =>
      rw [hlk] at hv
      dsimp only at hv
      split at hv
      case isTrue hlt =>
        have hlt2 : b + off < st.length := by
          by_contra hcon
          push_neg at hcon
          rw [List.getElem?_eq_none hcon] at hv
          cases hv
        intro P P1 P2 extra p hP hp
        simp only [vcode, hlk] at hP ⊢
        have hfetch1 : P[p]? = some (.LEA off) := by
          rw [hp, hP]
          have := fetch_at P1 (.LEA off) (.LI :: P2)
          simpa using this
        have hfetch2 : P[p + 1]? = some .LI := by
          have e1 : P = (P1 ++ [Instruction.LEA off]) ++ .LI :: P2 := by
            rw [hP]; simp
          have e2 : p + 1 = (P1 ++ [Instruction.LEA off]).length := by
            rw [hp]; simp
          rw [e1, e2, fetch_at]
        have hread2 : (st ++ extra)[b + off]? = some v := by
          rw [List.getElem?_append, if_pos hlt2]
          exact hv
        simp only [List.length_cons, List.length_nil]
        rw [show (0 : Nat) + 1 + 1 = 1 + 1 from rfl, execN_add, execN_one]
        rw [step_LEA _ off rfl hfetch1, Option.some_bind, execN_one]
        have hstep2 := step_LI (midState ((st ++ extra) ++ [Int.ofNat (b + off)])
            (p + 1) b P) (st ++ extra) (b + off) v rfl hfetch2 (by simp [midState])
          hlt hread2
        simp only [midState] at hstep2 ⊢
        rw [hstep2]
      case isFalse => cases hv
  | .Add l r => by
    simp only [varExpr, Bool.and_eq_true] at he
    simp only [evalV] at hv
    cases hvl : evalV tbl st b l with
    | none => rw [hvl] at hv; dsimp only at hv; cases hv
    | some a =>
      rw [hvl] at hv
      cases hvr : evalV tbl st b r with
      | none => rw [hvr] at hv; dsimp only at hv; cases hv
      | some y =>
        rw [hvr] at hv
        dsimp only at hv
        simp only [vcode]
        exact pushesVal_two _ _ _ st b a y _ (by simp only [opSem]; exact hv)
          (exec_vcode l he.1 tbl st b a hvl) (exec_vcode r he.2 tbl st b y hvr)
  | .Sub l r => by
    simp only [varExpr, Bool.and_eq_true] at he
    simp only [evalV] at hv
    cases hvl : evalV tbl st b l with
    | none => rw [hvl] at hv; dsimp only at hv; cases hv
    | some a =>
      rw [hvl] at hv
      cases hvr : evalV tbl st b r with
      | none => rw [hvr] at hv; dsimp only at hv; cases hv
      | some y =>
        rw [hvr] at hv
        dsimp only at hv
        simp only [vcode]
        exact pushesVal_two _ _ _ st b a y _ (by simp only [opSem]; exact hv)
          (exec_vcode l he.1 tbl st b a hvl) (exec_vcode r he.2 tbl st b y hvr)
  | .Mul l r => by
    simp only [varExpr, Bool.and_eq_true] at he
    simp only [evalV] at hv
    cases hvl : evalV tbl st b l with
    | none => rw [hvl] at hv; dsimp only at hv; cases hv
    | some a =>
      rw [hvl] at hv
      cases hvr : evalV tbl st b r with
      | none => rw [hvr] at hv; dsimp only at hv; cases hv
      | some y =>
        rw [hvr] at hv
        dsimp only at hv
        simp only [vcode]
        exact pushesVal_two _ _ _ st b a y _ (by simp only [opSem]; exact hv)
          (exec_vcode l he.1 tbl st b a hvl) (exec_vcode r he.2 tbl st b y hvr)
  | .Div l r => by
    simp only [varExpr, Bool.and_eq_true] at he
    simp only [evalV] at hv
    cases hvl : evalV tbl st b l with
    | none => rw [hvl] at hv; dsimp only at hv; cases hv
    | some a =>
      rw [hvl] at hv
      cases hvr : evalV tbl st b r with
      | none => rw [hvr] at hv; dsimp only at hv; cases hv
      | some y =>
        rw [hvr] at hv
        dsimp only at hv
        simp only [vcode]
        exact pushesVal_two _ _ _ st b a y _ (by simp only [opSem]; exact hv)
          (exec_vcode l he.1 tbl st b a hvl) (exec_vcode r he.2 tbl st b y hvr)
  | .Mod l r => by
    simp only [varExpr, Bool.and_eq_true] at he
    simp only [evalV] at hv
    cases hvl : evalV tbl st b l with
    | none => rw [hvl] at hv; dsimp only at hv; cases hv
    | some a =>
      rw [hvl] at hv
      cases hvr : evalV tbl st b r with
      | none => rw [hvr] at hv; dsimp only at hv; cases hv
      | some y =>
        rw [hvr] at hv
        dsimp only at hv
        simp only [vcode]
        exact pushesVal_two _ _ _ st b a y _ (by simp only [opSem]; exact hv)
          (exec_vcode l he.1 tbl st b a hvl) (exec_vcode r he.2 tbl st b y hvr)
  | .Equal l r => by
    simp only [varExpr, Bool.and_eq_true] at he
    simp only [evalV] at hv
    cases hvl : evalV tbl st b l with
    | none => rw [hvl] at hv; dsimp only at hv; cases hv
    | some a =>
      rw [hvl] at hv
      cases hvr : evalV tbl st b r with
      | none => rw [hvr] at hv; dsimp only at hv; cases hv
      | some y =>
        rw [hvr] at hv
        dsimp only at hv
        simp only [vcode]
        exact pushesVal_two _ _ _ st b a y _ (by simp only [opSem]; exact hv)
          (exec_vcode l he.1 tbl st b a hvl) (exec_vcode r he.2 tbl st b y hvr)
  | .Less l r => by
    simp only [varExpr, Bool.and_eq_true] at he
    simp only [evalV] at hv
    cases hvl : evalV tbl st b l with
    | none => rw [hvl] at hv; dsimp only at hv; cases hv
    | some a =>
      rw [hvl] at hv
      cases hvr : evalV tbl st b r with
      | none => rw [hvr] at hv; dsimp only at hv; cases hv
      | some y =>
        rw [hvr] at hv
        dsimp only at hv
        simp only [vcode]
        exact pushesVal_two _ _ _ st b a y _ (by simp only [opSem]; exact hv)
          (exec_vcode l he.1 tbl st b a hvl) (exec_vcode r he.2 tbl st b y hvr)
  | .Greater l r => by
    simp only [varExpr, Bool.and_eq_true] at he
    simp only [evalV] at hv
    cases hvl : evalV tbl st b l with
    | none => rw [hvl] at hv; dsimp only at hv; cases hv
    | some a =>
      rw [hvl] at hv
      cases hvr : evalV tbl st b r with
      | none => rw [hvr] at hv; dsimp only at hv; cases hv
      | some y =>
        rw [hvr] at hv
        dsimp only at hv
        simp only [vcode]
        exact pushesVal_two _ _ _ st b a y _ (by simp only [opSem]; exact hv)
          (exec_vcode l he.1 tbl st b a hvl) (exec_vcode r he.2 tbl st b y hvr)
  | .Call funcName args => by
    simp [varExpr] at he

/-- Binary-arm counterpart of `emit_two_extends` with exact code shapes. -/
theorem emit_two_shape
    (f g : List Instruction → List (Nat × String) →
      Except String (List Instruction × List (Nat × String)))
    (cf cg : List Instruction)
    (hf : ∀ i p o, f i p = .ok o → o = (i ++ cf, p))
    (hg : ∀ i p o, g i p = .ok o → o = (i ++ cg, p))
    (op : Instruction) (instrs : List Instruction) (ps : List (Nat × String))
    (out : List Instruction × List (Nat × String))
    (h : (match f instrs ps with
          | .error msg => (.error msg :
              Except String (List Instruction × List (Nat × String)))
          | .ok (i1, p1) =>
            match g i1 p1 with
            | .error msg => .error msg
            | .ok (i2, p2) => Except.ok (i2 ++ [op], p2)) = .ok out) :
    out = (instrs ++ (cf ++ cg ++ [op]), ps) := by
  cases hfe : f instrs ps with
  | error msg => rw [hfe] at h; cases h
  | ok r1 =>
    obtain ⟨i1, p1⟩ := r1
    rw [hfe] at h
    dsimp only at h
    cases hge : g i1 p1 with
    | error msg => rw [hge] at h; cases h
    | ok r2 =>
      obtain ⟨i2, p2⟩ := r2
      rw [hge] at h
      dsimp only at h
      cases h
      have h1 := hf _ _ _ hfe
      have h2 := hg _ _ _ hge
      injection h1 with hi1 hp1
      injection h2 with hi2 hp2
      subst hi1 hp1 hi2 hp2
      simp

/-- A successful emission of a call-free expression appends exactly its
`vcode` and leaves the patch list unchanged. -/
theorem emit_shape (e : Expr) (he : varExpr e = true) (instrs : List Instruction)
    (tbl : List (String × Nat)) (ps : List (Nat × String))
    (out : List Instruction × List (Nat × String))
    (h : emit_expr e instrs tbl ps = .ok out) :
    out = (instrs ++ vcode tbl e, ps) :=
  match e with
  | .Number n => by
    simp only [emit_expr] at h
    cases h
    simp [vcode]
  | .Variable name => by
    simp only [emit_expr] at h
    cases hlk : tbl.lookup name with
    | none => rw [hlk] at h; cases h
    | some off =>
      rw [hlk] at h
      dsimp only at h
      cases h
      simp [vcode, hlk]
  | .Var name => by
    simp only [emit_expr] at h
    cases hlk : tbl.lookup name with
    | none => rw [hlk] at h; cases h
    | some off =>
      rw [hlk] at h
      dsimp only at h
      cases h
      simp [vcode, hlk]
  | .Add l r => by
    simp only [varExpr, Bool.and_eq_true] at he
    simp only [emit_expr] at h
    have := emit_two_shape _ _ (vcode tbl l) (vcode tbl r)
      (fun i p o hh => emit_shape l he.1 i tbl p o hh)
      (fun i p o hh => emit_shape r he.2 i tbl p o hh) .ADD instrs ps out h
    simpa [vcode] using this
  | .Sub l r => by
    simp only [varExpr, Bool.and_eq_true] at he
    simp only [emit_expr] at h
    have := emit_two_shape _ _ (vcode tbl l) (vcode tbl r)
      (fun i p o hh => emit_shape l he.1 i tbl p o hh)
      (fun i p o hh => emit_shape r he.2 i tbl p o hh) .SUB instrs ps out h
    simpa [vcode] using this
  | .Mul l r => by
    simp only [varExpr, Bool.and_eq_true] at he
    simp only [emit_expr] at h
    have := emit_two_shape _ _ (vcode tbl l) (vcode tbl r)
      (fun i p o hh => emit_shape l he.1 i tbl p o hh)
      (fun i p o hh => emit_shape r he.2 i tbl p o hh) .MUL instrs ps out h
    simpa [vcode] using this
  | .Div l r => by
    simp only [varExpr, Bool.and_eq_true] at he
    simp only [emit_expr] at h
    have := emit_two_shape _ _ (vcode tbl l) (vcode tbl r)
      (fun i p o hh => emit_shape l he.1 i tbl p o hh)
      (fun i p o hh => emit_shape r he.2 i tbl p o hh) .DIV instrs ps out h
    simpa [vcode] using this
  | .Mod l r => by
    simp only [varExpr, Bool.and_eq_true] at he
    simp only [emit_expr] at h
    have := emit_two_shape _ _ (vcode tbl l) (vcode tbl r)
      (fun i p o hh => emit_shape l he.1 i tbl p o hh)
      (fun i p o hh => emit_shape r he.2 i tbl p o hh) .MOD instrs ps out h
    simpa [vcode] using this
  | .Equal l r => by
    simp only [varExpr, Bool.and_eq_true] at he
    simp only [emit_expr] at h
    have := emit_two_shape _ _ (vcode tbl l) (vcode tbl r)
      (fun i p o hh => emit_shape l he.1 i tbl p o hh)
      (fun i p o hh => emit_shape r he.2 i tbl p o hh) .EQ instrs ps out h
    simpa [vcode] using this
  | .Less l r => by
    simp only [varExpr, Bool.and_eq_true] at he
    simp only [emit_expr] at h
    have := emit_two_shape _ _ (vcode tbl l) (vcode tbl r)
      (fun i p o hh => emit_shape l he.1 i tbl p o hh)
      (fun i p o hh => emit_shape r he.2 i tbl p o hh) .LT instrs ps out h
    simpa [vcode] using this
  | .Greater l r => by
    simp only [varExpr, Bool.and_eq_true] at he
    simp only [emit_expr] at h
    have := emit_two_shape _ _ (vcode tbl l) (vcode tbl r)
      (fun i p o hh => emit_shape l he.1 i tbl p o hh)
      (fun i p o hh => emit_shape r he.2 i tbl p o hh) .GT instrs ps out h
    simpa [vcode] using this
  | .Call funcName args => by
    simp [varExpr] at he

/-- When every variable a call-free expression reads is denotable,
emission succeeds and appends exactly its `vcode`. -/
theorem emit_ok (e : Expr) (he : varExpr e = true) (tbl : List (String × Nat))
    (st : List Int) (b : Nat) (v : Int) (hv : evalV tbl st b e = some v)
    (instrs : List Instruction) (ps : List (Nat × String)) :
    emit_expr e instrs tbl ps = .ok (instrs ++ vcode tbl e, ps) :=
  match e with
  | .Number n => by simp [emit_expr, vcode]
  | .Variable name => by
    simp only [evalV] at hv
    cases hlk : tbl.lookup name with
    | none => rw [hlk] at hv; cases hv
    | some off => simp [emit_expr, vcode, hlk]
  | .Var name => by
    simp only [evalV] at hv
    cases hlk : tbl.lookup name with
    | none => rw [hlk] at hv; cases hv
    | some off => simp [emit_expr, vcode, hlk]
  | .Add l r => by
    simp only [varExpr, Bool.and_eq_true] at he
    simp only [evalV] at hv
    cases hvl : evalV tbl st b l with
    | none => rw [hvl] at hv; dsimp only at hv; cases hv
    | some a =>
      rw [hvl] at hv
      cases hvr : evalV tbl st b r with
      | none => rw [hvr] at hv; dsimp only at hv; cases hv
      | some y =>
        have hl := emit_ok l he.1 tbl st b a hvl instrs ps
        have hr := emit_ok r he.2 tbl st b y hvr (instrs ++ vcode tbl l) ps
        simp only [emit_expr, hl, hr, vcode]
        simp
  | .Sub l r => by
    simp only [varExpr, Bool.and_eq_true] at he
    simp only [evalV] at hv
    cases hvl : evalV tbl st b l with
    | none => rw [hvl] at hv; dsimp only at hv; cases hv
    | some a =>
      rw [hvl] at hv
      cases hvr : evalV tbl st b r with
      | none => rw [hvr] at hv; dsimp only at hv; cases hv
      | some y =>
        have hl := emit_ok l he.1 tbl st b a hvl instrs ps
        have hr := emit_ok r he.2 tbl st b y hvr (instrs ++ vcode tbl l) ps
        simp only [emit_expr, hl, hr, vcode]
        simp
  | .Mul l r => by
    simp only [varExpr, Bool.and_eq_true] at he
    simp only [evalV] at hv
    cases hvl : evalV tbl st b l with
    | none => rw [hvl] at hv; dsimp only at hv; cases hv
    | some a =>
      rw [hvl] at hv
      cases hvr : evalV tbl st b r with
      | none => rw [hvr] at hv; dsimp only at hv; cases hv
      | some y =>
        have hl := emit_ok l he.1 tbl st b a hvl instrs ps
        have hr := emit_ok r he.2 tbl st b y hvr (instrs ++ vcode tbl l) ps
        simp only [emit_expr, hl, hr, vcode]
        simp
  | .Div l r => by
    simp only [varExpr, Bool.and_eq_true] at he
    simp only [evalV] at hv
    cases hvl : evalV tbl st b l with
    | none => rw [hvl] at hv; dsimp only at hv; cases hv
    | some a =>
      rw [hvl] at hv
      cases hvr : evalV tbl st b r with
      | none => rw [hvr] at hv; dsimp only at hv; cases hv
      | some y =>
        have hl := emit_ok l he.1 tbl st b a hvl instrs ps
        have hr := emit_ok r he.2 tbl st b y hvr (instrs ++ vcode tbl l) ps
        simp only [emit_expr, hl, hr, vcode]
        simp
  | .Mod l r => by
    simp only [varExpr, Bool.and_eq_true] at he
    simp only [evalV] at hv
    cases hvl : evalV tbl st b l with
    | none => rw [hvl] at hv; dsimp only at hv; cases hv
    | some a =>
      rw [hvl] at hv
      cases hvr : evalV tbl st b r with
      | none => rw [hvr] at hv; dsimp only at hv; cases hv
      | some y =>
        have hl := emit_ok l he.1 tbl st b a hvl instrs ps
        have hr := emit_ok r he.2 tbl st b y hvr (instrs ++ vcode tbl l) ps
        simp only [emit_expr, hl, hr, vcode]
        simp
  | .Equal l r => by
    simp only [varExpr, Bool.and_eq_true] at he
    simp only [evalV] at hv
    cases hvl : evalV tbl st b l with
    | none => rw [hvl] at hv; dsimp only at hv; cases hv
    | some a =>
      rw [hvl] at hv
      cases hvr : evalV tbl st b r with
      | none => rw [hvr] at hv; dsimp only at hv; cases hv
      | some y =>
        have hl := emit_ok l he.1 tbl st b a hvl instrs ps
        have hr := emit_ok r he.2 tbl st b y hvr (instrs ++ vcode tbl l) ps
        simp only [emit_expr, hl, hr, vcode]
        simp
  | .Less l r => by
    simp only [varExpr, Bool.and_eq_true] at he
    simp only [evalV] at hv
    cases hvl : evalV tbl st b l with
    | none => rw [hvl] at hv; dsimp only at hv; cases hv
    | some a =>
      rw [hvl] at hv
      cases hvr : evalV tbl st b r with
      | none => rw [hvr] at hv; dsimp only at hv; cases hv
      | some y =>
        have hl := emit_ok l he.1 tbl st b a hvl instrs ps
        have hr := emit_ok r he.2 tbl st b y hvr (instrs ++ vcode tbl l) ps
        simp only [emit_expr, hl, hr, vcode]
        simp
  | .Greater l r => by
    simp only [varExpr, Bool.and_eq_true] at he
    simp only [evalV] at hv
    cases hvl : evalV tbl st b l with
    | none => rw [hvl] at hv; dsimp only at hv; cases hv
    | some a =>
      rw [hvl] at hv
      cases hvr : evalV tbl st b r with
      | none => rw [hvr] at hv; dsimp only at hv; cases hv
      | some y =>
        have hl := emit_ok l he.1 tbl st b a hvl instrs ps
        have hr := emit_ok r he.2 tbl st b y hvr (instrs ++ vcode tbl l) ps
        simp only [emit_expr, hl, hr, vcode]
        simp
  | .Call funcName args => by
    simp [varExpr] at he

/-- The spec's arithmetic expressions are call-free. -/
theorem isArith_varExpr (e : Expr) (h : isArith e = true) : varExpr e = true :=
  match e with
  | .Number _ => rfl
  | .Add l r => by
    simp only [isArith, Bool.and_eq_true] at h
    simp only [varExpr, Bool.and_eq_true]
    exact ⟨isArith_varExpr l h.1, isArith_varExpr r h.2⟩
  | .Sub l r => by
    simp only [isArith, Bool.and_eq_true] at h
    simp only [varExpr, Bool.and_eq_true]
    exact ⟨isArith_varExpr l h.1, isArith_varExpr r h.2⟩
  | .Mul l r => by
    simp only [isArith, Bool.and_eq_true] at h
    simp only [varExpr, Bool.and_eq_true]
    exact ⟨isArith_varExpr l h.1, isArith_varExpr r h.2⟩
  | .Div l r => by
    simp only [isArith, Bool.and_eq_true] at h
    simp only [varExpr, Bool.and_eq_true]
    exact ⟨isArith_varExpr l h.1, isArith_varExpr r h.2⟩
  | .Mod l r => by
    simp only [isArith, Bool.and_eq_true] at h
    simp only [varExpr, Bool.and_eq_true]
    exact ⟨isArith_varExpr l h.1, isArith_varExpr r h.2⟩
  | .Variable name => by simp [isArith] at h
  | .Var name => by simp [isArith] at h
  | .Equal l r => by simp [isArith] at h
  | .Less l r => by simp [isArith] at h
  | .Greater l r => by simp [isArith] at h
  | .Call funcName args => by simp [isArith] at h

/-- On arithmetic expressions the two evaluators agree: the denotation
is stack- and table-independent. -/
theorem isArith_evalV (e : Expr) (h : isArith e = true) (tbl : List (String × Nat))
    (st : List Int) (b : Nat) : evalV tbl st b e = specEval e :=
  match e with
  | .Number n => rfl
  | .Add l r => by
    simp only [isArith, Bool.and_eq_true] at h
    simp only [evalV, specEval, isArith_evalV l h.1 tbl st b,
      isArith_evalV r h.2 tbl st b]
  | .Sub l r => by
    simp only [isArith, Bool.and_eq_true] at h
    simp only [evalV, specEval, isArith_evalV l h.1 tbl st b,
      isArith_evalV r h.2 tbl st b]
  | .Mul l r => by
    simp only [isArith, Bool.and_eq_true] at h
    simp only [evalV, specEval, isArith_evalV l h.1 tbl st b,
      isArith_evalV r h.2 tbl st b]
  | .Div l r => by
    simp only [isArith, Bool.and_eq_true] at h
    simp only [evalV, specEval, isArith_evalV l h.1 tbl st b,
      isArith_evalV r h.2 tbl st b]
  | .Mod l r => by
    simp only [isArith, Bool.and_eq_true] at h
    simp only [evalV, specEval, isArith_evalV l h.1 tbl st b,
      isArith_evalV r h.2 tbl st b]
  | .Variable name => by simp [isArith] at h
  | .Var name => by simp [isArith] at h
  | .Equal l r => by simp [isArith] at h
  | .Less l r => by simp [isArith] at h
  | .Greater l r => by simp [isArith] at h
  | .Call funcName args => by simp [isArith] at h

theorem step_EXIT_strip (s : VMState) (k : Nat) (a c : Int) (rest : List Int)
    (hrun : s.running = true) (hfetch : s.program[s.pc]? = some .EXIT)
    (hhead : s.program.head? = some (.ENT k)) (hstack : s.stack = a :: c :: rest) :
    step s = some { s with
                    stack := rest,
                    result := some rest.getLast?,
                    running := false,
                    pc := s.pc + 1 } := by
  simp [step, hrun, hfetch, hhead, hstack]

/-- C3: for every expression built only from integer literals and the
operators add, sub, mul, div, mod whose standard signed-integer
evaluation (division truncating toward zero, remainder following
truncating division) is defined — every divisor nonzero — compiling
`return e;` and running the VM halts with the evaluation result as the
reported final stack top. -/
theorem arith_return_correct (e : Expr) (v : Int)
    (he : isArith e = true) (hv : specEval e = some v) :
    ∃ (P : List Instruction) (n : Nat) (s : VMState),
      generate_instructions (.Return e) = .ok P ∧
      execN n (VM_new P) = some s ∧
      s.running = false ∧ s.result = some (some v) := by
  have hva : varExpr e = true := isArith_varExpr e he
  set cd := vcode [] e with hcd
  set P : List Instruction := .ENT 0 :: (cd ++ [.PSH, .EXIT]) with hP
  have hev0 : evalV [] [] 0 e = some v := by
    rw [isArith_evalV e he]; exact hv
  have hev1 : evalV [] [Int.ofNat 0] 1 e = some v := by
    rw [isArith_evalV e he]; exact hv
  -- code generation
  have hemit := emit_ok e hva [] [] 0 v hev0 [Instruction.ENT 0] []
  have hgen : generate_instructions (.Return e) = .ok P := by
    simp only [generate_instructions, generateMain, generate_instructions_inner,
      hemit]
    simp [resolvePatches, hP]
  -- execution: ENT, the expression code, PSH, EXIT
  have hstep1 : step (VM_new P) = some (midState [Int.ofNat 0] 1 1 P) := by
    rw [step_ENT (VM_new P) 0 rfl (by simp [hP, VM_new])]
    simp [VM_new, midState]
  have h2 := exec_vcode e hva [] [Int.ofNat 0] 1 v hev1 P [.ENT 0]
    [.PSH, .EXIT] [] 1 (by simp [hP]) (by simp)
  simp only [List.append_nil] at h2
  rw [← hcd] at h2
  have hfetchP : P[1 + cd.length]? = some .PSH := by
    have e1 : P = ([Instruction.ENT 0] ++ cd) ++ .PSH :: [.EXIT] := by
      simp [hP]
    have e2 : 1 + cd.length = ([Instruction.ENT 0] ++ cd).length := by
      simp
      omega
    rw [e1, e2, fetch_at]
  have hstep3 : step (midState ([Int.ofNat 0] ++ [v]) (1 + cd.length) 1 P) =
      some (midState (([Int.ofNat 0] ++ [v]) ++ [v]) (1 + cd.length + 1) 1 P) := by
    rw [step_PSH _ [Int.ofNat 0] v rfl hfetchP (by simp [midState])]
    simp [midState]
  have hfetchE : P[1 + cd.length + 1]? = some .EXIT := by
    have e1 : P = ([Instruction.ENT 0] ++ cd ++ [Instruction.PSH]) ++
        .EXIT :: [] := by
      simp [hP]
    have e2 : 1 + cd.length + 1 =
        ([Instruction.ENT 0] ++ cd ++ [Instruction.PSH]).length := by
      simp
      omega
    rw [e1, e2, fetch_at]
  have hstep4 : step (midState (([Int.ofNat 0] ++ [v]) ++ [v])
      (1 + cd.length + 1) 1 P) =
      some { midState (([Int.ofNat 0] ++ [v]) ++ [v]) (1 + cd.length + 1) 1 P with
             stack := [v],
             result := some (some v),
             running := false,
             pc := 1 + cd.length + 1 + 1 } := by
    rw [step_EXIT_strip _ 0 (Int.ofNat 0) v [v] rfl hfetchE
      (by simp [midState, hP]) (by simp [midState])]
    simp [midState]
  have htotal : execN (1 + (cd.length + (1 + 1))) (VM_new P) =
      some { stack := [v], pc := 1 + cd.length + 1 + 1, bp := 1, program := P,
             running := false, result := some (some v) } := by
    rw [execN_add, execN_one, hstep1, Option.some_bind, execN_add, h2,
      Option.some_bind, execN_add, execN_one, hstep3, Option.some_bind,
      execN_one, hstep4]
    simp [midState]
  exact ⟨P, 1 + (cd.length + (1 + 1)), _, hgen, htotal, rfl, rfl⟩

/-- The AST of `add(a,b){ return a+b; }` followed by `return add(2,3);`. -/
def addCallAst : ASTNode := .Sequence [
  .FunctionDef "add" ["a", "b"] (.Return (.Add (.Variable "a") (.Variable "b"))),
  .Return (.Call "add" [.Number 2, .Number 3])]

/-- C1: code generation on the add/call program does not resolve the
call to the function's entry address and the program never runs: the
generator's `function_addresses` table is created empty and no arm ever
records a `FunctionDef` entry address, so patch resolution fails
fatally with `Unresolved call to add` instead of producing a program
whose run ends with final stack top 5. -/
theorem addCall_codegen_fails :
    generate_instructions addCallAst = .error "Unresolved call to add" := by
  decide

/-- The AST of `int x = 5; x = 10; return x;`. -/
def c6ast : ASTNode := .Sequence [.Declaration "x" (.Number 5),
  .Assignment "x" (.Number 10), .Return (.Variable "x")]

/-- Its generated program. -/
def c6prog : List Instruction := [.ENT 1, .LEA 0, .IMM 5, .SI, .LEA 0, .IMM 10,
  .SI, .LEA 0, .LI, .PSH, .EXIT]

/-- C6: for `int x = 5; x = 10; return x;` the Return observes the most
recent assignment: the VM halts with final reported stack top 10. -/
theorem assignment_ordering :
    generate_instructions c6ast = .ok c6prog ∧
    (execN 11 (VM_new c6prog)).map (fun s => (s.running, s.result)) =
      some (false, some (some 10)) := by
  decide

/-- C9: when the root Sequence consists only of FunctionDef nodes the
generator returns exactly `[push-immediate 0, terminate]`: no
frame-reservation instruction, and no function body is compiled. -/
theorem allfundefs_trivial_program (nodes : List ASTNode)
    (h : nodes.all isFunctionDef = true) :
    generate_instructions (.Sequence nodes) = .ok [.IMM 0, .EXIT] := by
  simp [generate_instructions, h]

/-- C9 witness: a function list whose body could not even be compiled
(it reads an undeclared variable) still yields the trivial program. -/
theorem allfundefs_trivial_program_witness :
    ([ASTNode.FunctionDef "f" [] (.Return (.Variable "nope"))].all isFunctionDef
      = true) ∧
    generate_instructions (.Sequence [ASTNode.FunctionDef "f" []
      (.Return (.Variable "nope"))]) = .ok [.IMM 0, .EXIT] :=
  ⟨by decide, allfundefs_trivial_program _ (by decide)⟩

/-- A one-call program: `JSR 2` from the top level, callee `ENT 0;
IMM 42; LEV`. -/
def callBalanceProg : List Instruction := [.JSR 2, .EXIT, .ENT 0, .IMM 42, .LEV]

/-- C2 counterexample: height before the call is 0; after `JSR`, `ENT`,
`IMM 42`, `LEV` (the step landing back at the return address) the height
is again 0, not 0 + 1 — `LEV` truncates the frame away and consumes the
return address, leaving no returned value. -/
theorem call_balance_counterexample :
    (execN 4 (VM_new callBalanceProg)).map (fun s => s.stack.length) = some 0 ∧
    ¬ (execN 4 (VM_new callBalanceProg)).map (fun s => s.stack.length) =
        some ((VM_new callBalanceProg).stack.length + 1) := by
  decide

/-- C2 (amended): for a well-formed call — stack `st0` at the call, the
`JSR` return address and the `ENT`-saved frame base above it, frame base
`st0.length + 2` — `leave-frame` restores exactly the pre-call height
`st0.length`: the return address and saved base are consumed, whatever
the callee pushed is discarded, and no returned value remains. -/
theorem leave_frame_restores_height (s : VMState) (st0 : List Int)
    (ra ob : Nat) (locals : List Int)
    (hrun : s.running = true)
    (hfetch : s.program[s.pc]? = some .LEV)
    (hstack : s.stack = st0 ++ [Int.ofNat ra, Int.ofNat ob] ++ locals)
    (hbp : s.bp = st0.length + 2)
    (hra : ra < 2 ^ 64) (hob : ob < 2 ^ 64) :
    step s = some { s with stack := st0, bp := ob, pc := ra } := by
  have hb0 : ¬ s.bp = 0 := by omega
  have hidx : s.bp - 1 = (st0 ++ [Int.ofNat ra]).length := by
    rw [hbp]; simp
  have hsplit : s.stack = (st0 ++ [Int.ofNat ra]) ++ Int.ofNat ob :: locals := by
    rw [hstack]; simp
  have hgetOb : s.stack[s.bp - 1]? = some (Int.ofNat ob) := by
    rw [hsplit, hidx, fetch_at]
  have htake : s.stack.take (s.bp - 1) = st0 ++ [Int.ofNat ra] := by
    rw [hsplit, hidx, List.take_left]
  simp [step, hrun, hfetch, hb0, hgetOb, htake, pop1_concat,
    usizeOf_ofNat ra hra, usizeOf_ofNat ob hob, usizeOf_natCast ra hra,
    usizeOf_natCast ob hob]

/-- C2 amended witness: the concrete state of `callBalanceProg` just
before its `LEV` executes. -/
theorem leave_frame_restores_height_witness :
    step { stack := [Int.ofNat 1, Int.ofNat 0, 42], pc := 4, bp := 2,
           program := callBalanceProg, running := true, result := none } =
      some { stack := [], pc := 1, bp := 0, program := callBalanceProg,
             running := true, result := none } :=
  leave_frame_restores_height _ [] 1 0 [42] rfl (by decide) rfl rfl
    (by decide) (by decide)

/-- A program that pops from the empty stack with `ADJ` and still
finishes normally. -/
def adjProg : List Instruction := [.ADJ 1, .IMM 7, .EXIT]

/-- C7 counterexample: `ADJ 1` attempts a pop on the empty stack
(`self.stack.pop()` with the result discarded), execution is not halted,
and the program still reports final result 7. -/
theorem empty_pop_not_always_fatal :
    (execN 3 (VM_new adjProg)).map (fun s => (s.running, s.result)) =
      some (false, some (some 7)) := by
  decide

/-- C7 (amended): fetching at or past the program's length is always an
immediate fatal halt with no result; popping on an empty stack is fatal
for every opcode that unwraps its pops (duplicate, arithmetic,
comparisons, conditional branches, loads, stores, leave-frame, MALC) —
but ADJ, FREE and MSET silently ignore the missing operands and
continue. -/
theorem runtime_fault_behavior :
    (∀ s : VMState, s.running = true → s.program.length ≤ s.pc →
      step s = none) ∧
    (∀ (s : VMState) (i : Instruction), s.running = true → s.stack = [] →
      s.program[s.pc]? = some i →
      (i ∈ ([.PSH, .ADD, .SUB, .MUL, .DIV, .MOD, .LEV, .LI, .LC, .SI, .SC,
             .MALC, .EQ, .LT, .GT] : List Instruction) ∨
        (∃ t, i = .BZ t) ∨ (∃ t, i = .BNZ t)) →
      step s = none) ∧
    (∀ (s : VMState) (i : Instruction), s.running = true → s.stack = [] →
      s.program[s.pc]? = some i →
      ((∃ n, i = .ADJ n) ∨ i = .FREE ∨ i = .MSET) →
      step s = some { s with stack := [], pc := s.pc + 1 }) := by
  refine ⟨?_, ?_, ?_⟩
  · intro s hrun hlen
    have : s.program[s.pc]? = none := by
      rw [List.getElem?_eq_none hlen]
    simp [step, hrun, this]
  · rintro s i hrun hstack hfetch (hmem | ⟨t, rfl⟩ | ⟨t, rfl⟩)
    · simp only [List.mem_cons, List.not_mem_nil, or_false] at hmem
      rcases hmem with rfl | rfl | rfl | rfl | rfl | rfl | rfl | rfl | rfl |
        rfl | rfl | rfl | rfl | rfl | rfl
      · simp [step, hrun, hfetch, hstack]
      · simp [step, hrun, hfetch, hstack, pop2, pop1]
      · simp [step, hrun, hfetch, hstack, pop2, pop1]
      · simp [step, hrun, hfetch, hstack, pop2, pop1]
      · simp [step, hrun, hfetch, hstack, pop2, pop1]
      · simp [step, hrun, hfetch, hstack, pop2, pop1]
      · by_cases hb : s.bp = 0
        · simp [step, hrun, hfetch, hstack, hb]
        · simp [step, hrun, hfetch, hstack, hb]
      · simp [step, hrun, hfetch, hstack, pop1]
      · simp [step, hrun, hfetch, hstack, pop1]
      · simp [step, hrun, hfetch, hstack, pop2, pop1]
      · simp [step, hrun, hfetch, hstack, pop2, pop1]
      · simp [step, hrun, hfetch, hstack, pop2, pop1]
      · simp [step, hrun, hfetch, hstack, pop2, pop1]
      · simp [step, hrun, hfetch, hstack, pop2, pop1]
      · simp [step, hrun, hfetch, hstack, pop2, pop1]
    · simp [step, hrun, hfetch, hstack, pop1]
    · simp [step, hrun, hfetch, hstack, pop1]
  · rintro s i hrun hstack hfetch (⟨n, rfl⟩ | rfl | rfl)
    · simp [step, hrun, hfetch, hstack, adjDrop]
    · simp [step, hrun, hfetch, hstack, adjDrop]
    · simp [step, hrun, hfetch, hstack, adjDrop]

/-- C7 amended witness: concrete instances — the empty program faults at
once; `ADD` on an empty stack faults; `ADJ 5` on an empty stack steps
on. -/
theorem runtime_fault_behavior_witness :
    step (VM_new []) = none ∧
    step (VM_new [.ADD]) = none ∧
    step (VM_new [.ADJ 5]) = some { VM_new [.ADJ 5] with stack := [], pc := 1 } :=
  ⟨runtime_fault_behavior.1 (VM_new []) rfl (by decide),
   runtime_fault_behavior.2.1 (VM_new [.ADD]) .ADD rfl rfl rfl
     (.inl (by decide)),
   runtime_fault_behavior.2.2 (VM_new [.ADJ 5]) (.ADJ 5) rfl rfl rfl
     (.inl ⟨5, rfl⟩)⟩

/-- C10: when instruction 0 of the running program is `ENT`, the `EXIT`
arm removes the two bottom stack entries before reporting, guarded only
by the stack being non-empty: with an empty stack nothing is removed and
an empty result is reported; with exactly one entry the second
`remove(0)` is a fatal fault and no result is reported; with two or more
the two bottom entries are removed and the remaining top is reported. -/
theorem exit_strips_two (s : VMState) (k : Nat)
    (hrun : s.running = true)
    (hhead : s.program.head? = some (.ENT k))
    (hfetch : s.program[s.pc]? = some .EXIT) :
    (s.stack = [] →
      step s = some { s with
                      stack := [],
                      result := some none,
                      running := false,
                      pc := s.pc + 1 }) ∧
    (∀ x : Int, s.stack = [x] → step s = none) ∧
    (∀ (a c : Int) (rest : List Int), s.stack = a :: c :: rest →
      step s = some { s with
                      stack := rest,
                      result := some rest.getLast?,
                      running := false,
                      pc := s.pc + 1 }) := by
  refine ⟨?_, ?_, ?_⟩
  · intro h0
    simp [step, hrun, hfetch, hhead, h0]
  · intro x h1
    simp [step, hrun, hfetch, hhead, h1]
  · intro a c rest h2
    exact step_EXIT_strip s k a c rest hrun hfetch hhead h2

/-- C10 witness: for program `[ENT 0, EXIT]` at `pc = 1`, a one-entry
stack faults, and a three-entry stack loses its two bottom entries. -/
theorem exit_strips_two_witness :
    step { stack := [5], pc := 1, bp := 0, program := [.ENT 0, .EXIT],
           running := true, result := none } = none ∧
    step { stack := [7, 8, 9], pc := 1, bp := 0, program := [.ENT 0, .EXIT],
           running := true, result := none } =
      some { stack := [9], pc := 2, bp := 0, program := [.ENT 0, .EXIT],
             running := false, result := some (some 9) } := by
  constructor
  · exact (exit_strips_two ⟨[5], 1, 0, [.ENT 0, .EXIT], true, none⟩ 0
      rfl rfl rfl).2.1 5 rfl
  · exact (exit_strips_two ⟨[7, 8, 9], 1, 0, [.ENT 0, .EXIT], true, none⟩ 0
      rfl rfl rfl).2.2 7 8 [9] rfl

/-- C8: every compile-time error condition is fatal and names the
offender: assignment to an unbound variable, reference to an unbound
variable, and — since the function-address table is always empty — any
remaining patch record, whose resolution fails naming the callee rather
than substituting a default address. -/
theorem codegen_error_conditions :
    (∀ (name : String) (e : Expr) (g : GenState),
      g.symbolTable.lookup name = none →
      generate_instructions_inner (.Assignment name e) g =
        .error ("Assignment to undeclared variable: " ++ name)) ∧
    (∀ (name : String) (instrs : List Instruction) (tbl : List (String × Nat))
      (ps : List (Nat × String)), tbl.lookup name = none →
      emit_expr (.Variable name) instrs tbl ps =
        .error ("Use of undeclared variable: " ++ name)) ∧
    (∀ (idx : Nat) (name : String) (rest : List (Nat × String))
      (instrs : List Instruction),
      resolvePatches ((idx, name) :: rest) instrs =
        .error ("Unresolved call to " ++ name)) := by
  refine ⟨?_, ?_, ?_⟩
  · intro name e g h
    simp [generate_instructions_inner, h]
  · intro name instrs tbl ps h
    simp [emit_expr, h]
  · intro idx name rest instrs
    simp [resolvePatches, function_addresses]

/-- C8 witness: the three error conditions at concrete inputs. -/
theorem codegen_error_conditions_witness :
    generate_instructions_inner (.Assignment "x" (.Number 1))
      { instructions := [], symbolTable := [], nextOffset := 0, patches := [] } =
      .error ("Assignment to undeclared variable: " ++ "x") ∧
    emit_expr (.Variable "y") [] [] [] =
      .error ("Use of undeclared variable: " ++ "y") ∧
    resolvePatches [(3, "f")] [] = .error ("Unresolved call to " ++ "f") :=
  ⟨codegen_error_conditions.1 "x" (.Number 1) _ (by decide),
   codegen_error_conditions.2.1 "y" [] [] [] (by decide),
   codegen_error_conditions.2.2 3 "f" [] []⟩

/-- C3 witness: `return 10 / 2 % 3;` — truncating division then
remainder gives `(10 / 2) % 3 = 2` as the reported final stack top. -/
theorem arith_return_correct_witness :
    isArith (.Mod (.Div (.Number 10) (.Number 2)) (.Number 3)) = true ∧
    specEval (.Mod (.Div (.Number 10) (.Number 2)) (.Number 3)) = some 2 ∧
    ∃ (P : List Instruction) (n : Nat) (s : VMState),
      generate_instructions (.Return (.Mod (.Div (.Number 10) (.Number 2))
        (.Number 3))) = .ok P ∧
      execN n (VM_new P) = some s ∧
      s.running = false ∧ s.result = some (some 2) :=
  ⟨by decide, by decide,
   arith_return_correct (.Mod (.Div (.Number 10) (.Number 2)) (.Number 3)) 2
     (by decide) (by decide)⟩

/-- C4: when an `If`'s call-free condition evaluates to zero, none of
the then-branch's instructions execute — execution takes exactly
`|condition code| + 1` steps (the condition instructions and the
patched branch-if-zero), stack unchanged.  First conjunct, no else
branch: the block is condition code, branch-if-zero patched past the
then-code, then-code; control resumes exactly at the instruction
immediately following the then-branch's emitted instructions.  Second
conjunct, with an else branch: the block is condition code,
branch-if-zero patched to the else branch's first address, then-code,
jump-over-else patched past the else-code, else-code; the zero
condition lands exactly on the else branch's first instruction, past
the whole then-code and the jump-over-else. -/
theorem if_false_skips_then :
    (∀ (c : Expr) (t : ASTNode) (g gout : GenState),
      varExpr c = true →
      generate_instructions_inner (.If c t none) g = .ok gout →
      ∃ tc : List Instruction,
        gout.instructions = g.instructions ++ vcode g.symbolTable c ++
          (.BZ gout.instructions.length :: tc) ∧
        ∀ (P2 : List Instruction) (st : List Int) (b : Nat),
          evalV g.symbolTable st b c = some 0 →
          execN ((vcode g.symbolTable c).length + 1)
            (midState st g.instructions.length b (gout.instructions ++ P2)) =
            some (midState st gout.instructions.length b
              (gout.instructions ++ P2))) ∧
    (∀ (c : Expr) (t eb : ASTNode) (g gout : GenState),
      varExpr c = true →
      generate_instructions_inner (.If c t (some eb)) g = .ok gout →
      ∃ tc ec : List Instruction,
        gout.instructions = g.instructions ++ vcode g.symbolTable c ++
          (.BZ (g.instructions.length + (vcode g.symbolTable c).length + 1 +
              tc.length + 1) ::
            (tc ++ (.JMP gout.instructions.length :: ec))) ∧
        ∀ (P2 : List Instruction) (st : List Int) (b : Nat),
          evalV g.symbolTable st b c = some 0 →
          execN ((vcode g.symbolTable c).length + 1)
            (midState st g.instructions.length b (gout.instructions ++ P2)) =
            some (midState st
              (g.instructions.length + (vcode g.symbolTable c).length + 1 +
                tc.length + 1) b (gout.instructions ++ P2))) := by
  constructor
  · intro c t g gout hc hgen
    simp only [generate_instructions_inner] at hgen
    cases he : emit_expr c g.instructions g.symbolTable g.patches with
    | error msg => rw [he] at hgen; cases hgen
    | ok r1 =>
      obtain ⟨i1, p1⟩ := r1
      rw [he] at hgen
      dsimp only at hgen
      have hsh := emit_shape c hc _ _ _ _ he
      injection hsh with hi1 hp1
      subst hi1
      subst hp1
      cases hg2 : generate_instructions_inner t
          { g with
            instructions := g.instructions ++ vcode g.symbolTable c ++ [.BZ 9999],
            patches := g.patches } with
      | error msg => rw [hg2] at hgen; cases hgen
      | ok g2 =>
        rw [hg2] at hgen
        dsimp only at hgen
        cases hgen
        obtain ⟨t2, e3⟩ := genInner_extends t _ _ hg2
        dsimp only at e3
        have e3a : g2.instructions =
            (g.instructions ++ vcode g.symbolTable c) ++ (.BZ 9999 :: t2) := by
          rw [e3]; simp
        have hmain : ∀ v : Instruction,
            g2.instructions.set (g.instructions ++ vcode g.symbolTable c).length
              v = (g.instructions ++ vcode g.symbolTable c) ++ (v :: t2) := by
          intro v
          conv_lhs => rw [e3a]
          exact set_at_append _ _ _ _
        refine ⟨t2, ?_, ?_⟩
        · dsimp only
          rw [List.length_set, hmain]
        · intro P2 st b hv
          dsimp only
          set L := g2.instructions.length with hL
          set vc := vcode g.symbolTable c with hvc
          have hnew : g2.instructions.set (g.instructions ++ vc).length (.BZ L) =
              (g.instructions ++ vc) ++ (.BZ L :: t2) := hmain _
          rw [List.length_set, ← hL, hnew]
          have hPfull : (g.instructions ++ vc) ++ (.BZ L :: t2) ++ P2 =
              g.instructions ++ vc ++ (.BZ L :: (t2 ++ P2)) := by simp
          rw [hPfull]
          rw [execN_add]
          have h1 := exec_vcode c hc g.symbolTable st b 0 hv
            (g.instructions ++ vc ++ (.BZ L :: (t2 ++ P2))) g.instructions
            (.BZ L :: (t2 ++ P2)) [] g.instructions.length rfl rfl
          simp only [List.append_nil, ← hvc] at h1
          rw [h1, Option.some_bind, execN_one]
          have hfetchBZ : (g.instructions ++ vc ++
              (.BZ L :: (t2 ++ P2)))[g.instructions.length + vc.length]? =
              some (.BZ L) := by
            have e1 : g.instructions ++ vc ++ (.BZ L :: (t2 ++ P2)) =
                (g.instructions ++ vc) ++ .BZ L :: (t2 ++ P2) := by simp
            have e2 : g.instructions.length + vc.length =
                (g.instructions ++ vc).length := by simp
            rw [e1, e2, fetch_at]
          rw [step_BZ_zero _ L st rfl hfetchBZ (by simp [midState])]
          simp [midState]
  · intro c t eb g gout hc hgen
    simp only [generate_instructions_inner] at hgen
    cases he : emit_expr c g.instructions g.symbolTable g.patches with
    | error msg => rw [he] at hgen; cases hgen
    | ok r1 =>
      obtain ⟨i1, p1⟩ := r1
      rw [he] at hgen
      dsimp only at hgen
      have hsh := emit_shape c hc _ _ _ _ he
      injection hsh with hi1 hp1
      subst hi1
      subst hp1
      cases hg2 : generate_instructions_inner t
          { g with
            instructions := g.instructions ++ vcode g.symbolTable c ++ [.BZ 9999],
            patches := g.patches } with
      | error msg => rw [hg2] at hgen; cases hgen
      | ok g2 =>
        rw [hg2] at hgen
        dsimp only at hgen
        cases hg3 : generate_instructions_inner eb
            { g2 with instructions := g2.instructions ++ [.JMP 9999] } with
        | error msg => rw [hg3] at hgen; cases hgen
        | ok g3 =>
          rw [hg3] at hgen
          dsimp only at hgen
          cases hgen
          obtain ⟨tc, e3⟩ := genInner_extends t _ _ hg2
          dsimp only at e3
          obtain ⟨ec, e5⟩ := genInner_extends eb _ _ hg3
          dsimp only at e5
          set vc := vcode g.symbolTable c with hvc
          have e3a : g3.instructions =
              (g.instructions ++ vc) ++
                (.BZ 9999 :: (tc ++ (.JMP 9999 :: ec))) := by
            rw [e5, e3]; simp
          have hjoi : g2.instructions.length =
              g.instructions.length + vc.length + 1 + tc.length := by
            have hce := congrArg List.length e3
            simp at hce
            omega
          have hmain1 : ∀ v : Instruction,
              g3.instructions.set (g.instructions ++ vc).length v =
                (g.instructions ++ vc) ++ (v :: (tc ++ (.JMP 9999 :: ec))) := by
            intro v
            conv_lhs => rw [e3a]
            exact set_at_append _ _ _ _
          have hmain2 : ∀ v1 v2 : Instruction,
              ((g.instructions ++ vc) ++ (v1 :: (tc ++ (.JMP 9999 :: ec)))).set
                g2.instructions.length v2 =
                (g.instructions ++ vc) ++ (v1 :: (tc ++ (v2 :: ec))) := by
            intro v1 v2
            have hsplit : (g.instructions ++ vc) ++
                (v1 :: (tc ++ (.JMP 9999 :: ec))) =
                ((g.instructions ++ vc) ++ (v1 :: tc)) ++ (.JMP 9999 :: ec) := by
              simp
            have hidx : g2.instructions.length =
                ((g.instructions ++ vc) ++ (v1 :: tc)).length := by
              simp
              omega
            rw [hsplit, hidx, set_at_append]
            simp
          refine ⟨tc, ec, ?_, ?_⟩
          · dsimp only
            rw [List.length_set, List.length_set, hmain1, hmain2]
            rw [show g2.instructions.length + 1 =
              g.instructions.length + vc.length + 1 + tc.length + 1 from by
                omega]
          · intro P2 st b hv
            dsimp only
            rw [hmain1, hmain2]
            rw [show g.instructions.length + vc.length + 1 + tc.length + 1 =
              g2.instructions.length + 1 from by omega]
            have hPfull : (g.instructions ++ vc) ++
                (.BZ (g2.instructions.length + 1) ::
                  (tc ++ (.JMP g3.instructions.length :: ec))) ++ P2 =
                g.instructions ++ vc ++ (.BZ (g2.instructions.length + 1) ::
                  (tc ++ (.JMP g3.instructions.length :: ec) ++ P2)) := by
              simp
            rw [hPfull]
            rw [execN_add]
            have h1 := exec_vcode c hc g.symbolTable st b 0 hv
              (g.instructions ++ vc ++ (.BZ (g2.instructions.length + 1) ::
                (tc ++ (.JMP g3.instructions.length :: ec) ++ P2)))
              g.instructions
              (.BZ (g2.instructions.length + 1) ::
                (tc ++ (.JMP g3.instructions.length :: ec) ++ P2)) []
              g.instructions.length rfl rfl
            simp only [List.append_nil, ← hvc] at h1
            rw [h1, Option.some_bind, execN_one]
            have hfetchBZ : (g.instructions ++ vc ++
                (.BZ (g2.instructions.length + 1) ::
                  (tc ++ (.JMP g3.instructions.length :: ec) ++
                    P2)))[g.instructions.length + vc.length]? =
                some (.BZ (g2.instructions.length + 1)) := by
              have e1 : g.instructions ++ vc ++
                  (.BZ (g2.instructions.length + 1) ::
                    (tc ++ (.JMP g3.instructions.length :: ec) ++ P2)) =
                  (g.instructions ++ vc) ++
                    .BZ (g2.instructions.length + 1) ::
                      (tc ++ (.JMP g3.instructions.length :: ec) ++ P2) := by
                simp
              have e2 : g.instructions.length + vc.length =
                  (g.instructions ++ vc).length := by simp
              rw [e1, e2, fetch_at]
            rw [step_BZ_zero _ (g2.instructions.length + 1) st rfl hfetchBZ
              (by simp [midState])]
            simp [midState]

/-- C4 witness: `if (0) { return 1; }` — the branch-if-zero is patched
to 6, right after the then-code; and
`if (0) { return 1; } else { return 2; }` — the branch-if-zero is
patched to 7, the else branch's first instruction, past the then-code
and the jump-over-else. -/
theorem if_false_skips_then_witness :
    varExpr (.Number 0) = true ∧
    generate_instructions_inner (.If (.Number 0) (.Return (.Number 1)) none)
      ⟨[.ENT 0], [], 0, []⟩ =
      .ok ⟨[.ENT 0, .IMM 0, .BZ 6, .IMM 1, .PSH, .EXIT], [], 0, []⟩ ∧
    (∃ tc : List Instruction,
      ([.ENT 0, .IMM 0, .BZ 6, .IMM 1, .PSH, .EXIT] : List Instruction) =
        [.ENT 0] ++ vcode [] (.Number 0) ++ (.BZ 6 :: tc) ∧
      ∀ (P2 : List Instruction) (st : List Int) (b : Nat),
        evalV [] st b (.Number 0) = some 0 →
        execN ((vcode [] (.Number 0)).length + 1)
          (midState st 1 b
            ([.ENT 0, .IMM 0, .BZ 6, .IMM 1, .PSH, .EXIT] ++ P2)) =
          some (midState st 6 b
            ([.ENT 0, .IMM 0, .BZ 6, .IMM 1, .PSH, .EXIT] ++ P2))) ∧
    generate_instructions_inner
      (.If (.Number 0) (.Return (.Number 1)) (some (.Return (.Number 2))))
      ⟨[.ENT 0], [], 0, []⟩ =
      .ok ⟨[.ENT 0, .IMM 0, .BZ 7, .IMM 1, .PSH, .EXIT, .JMP 10, .IMM 2,
            .PSH, .EXIT], [], 0, []⟩ ∧
    (∃ tc ec : List Instruction,
      ([.ENT 0, .IMM 0, .BZ 7, .IMM 1, .PSH, .EXIT, .JMP 10, .IMM 2,
        .PSH, .EXIT] : List Instruction) =
        [.ENT 0] ++ vcode [] (.Number 0) ++
          (.BZ (1 + (vcode [] (.Number 0)).length + 1 + tc.length + 1) ::
            (tc ++ (.JMP 10 :: ec))) ∧
      ∀ (P2 : List Instruction) (st : List Int) (b : Nat),
        evalV [] st b (.Number 0) = some 0 →
        execN ((vcode [] (.Number 0)).length + 1)
          (midState st 1 b
            ([.ENT 0, .IMM 0, .BZ 7, .IMM 1, .PSH, .EXIT, .JMP 10, .IMM 2,
              .PSH, .EXIT] ++ P2)) =
          some (midState st
            (1 + (vcode [] (.Number 0)).length + 1 + tc.length + 1) b
            ([.ENT 0, .IMM 0, .BZ 7, .IMM 1, .PSH, .EXIT, .JMP 10, .IMM 2,
              .PSH, .EXIT] ++ P2))) :=
  ⟨rfl, by decide,
   if_false_skips_then.1 (.Number 0) (.Return (.Number 1)) ⟨[.ENT 0], [], 0, []⟩
     ⟨[.ENT 0, .IMM 0, .BZ 6, .IMM 1, .PSH, .EXIT], [], 0, []⟩
     (by decide) (by decide),
   by decide,
   if_false_skips_then.2 (.Number 0) (.Return (.Number 1)) (.Return (.Number 2))
     ⟨[.ENT 0], [], 0, []⟩
     ⟨[.ENT 0, .IMM 0, .BZ 7, .IMM 1, .PSH, .EXIT, .JMP 10, .IMM 2,
       .PSH, .EXIT], [], 0, []⟩
     (by decide) (by decide)⟩

/-- Execution of a compiled `While` block: from loop start, as long as
the condition denotes nonzero the body (given as a black-box execution)
runs and control returns to loop start; at the first iteration whose
condition denotes zero the branch-if-zero leaves the block at address
`X`. -/
theorem while_runs_aux (tbl : List (String × Nat)) (c : Expr)
    (hc : varExpr c = true) (Pre bc P2 : List Instruction) (bp : Nat)
    (X : Nat) (P : List Instruction)
    (hP : P = Pre ++ vcode tbl c ++ (.BZ X :: (bc ++ [.JMP Pre.length])) ++ P2) :
    ∀ (N : Nat) (sts : Nat → List Int) (kb : Nat → Nat),
    evalV tbl (sts N) bp c = some 0 →
    (∀ i, i < N → evalV tbl (sts i) bp c ≠ none ∧
      evalV tbl (sts i) bp c ≠ some 0) →
    (∀ i, i < N → execN (kb i)
      (midState (sts i) (Pre.length + (vcode tbl c).length + 1) bp P) =
      some (midState (sts (i + 1))
        (Pre.length + (vcode tbl c).length + 1 + bc.length) bp P)) →
    ∃ K, execN K (midState (sts 0) Pre.length bp P) =
      some (midState (sts N) X bp P) := by
  intro N
  induction N with
  | zero =>
    intro sts kb hz hnz hbody
    refine ⟨(vcode tbl c).length + 1, ?_⟩
    rw [execN_add]
    have h1 := exec_vcode c hc tbl (sts 0) bp 0 hz P Pre
      (.BZ X :: (bc ++ [.JMP Pre.length] ++ P2)) [] Pre.length
      (by rw [hP]; simp) rfl
    simp only [List.append_nil] at h1
    rw [h1, Option.some_bind, execN_one]
    have hfetchBZ : P[Pre.length + (vcode tbl c).length]? = some (.BZ X) := by
      have e1 : P = (Pre ++ vcode tbl c) ++
          .BZ X :: (bc ++ [.JMP Pre.length] ++ P2) := by rw [hP]; simp
      have e2 : Pre.length + (vcode tbl c).length =
          (Pre ++ vcode tbl c).length := by simp
      rw [e1, e2, fetch_at]
    rw [step_BZ_zero _ X (sts 0) rfl hfetchBZ (by simp [midState])]
    simp [midState]
  | succ n ih =>
    intro sts kb hz hnz hbody
    have h0 : 0 < n + 1 := by omega
    obtain ⟨hne, hn0⟩ := hnz 0 h0
    obtain ⟨v0, hv0⟩ : ∃ v0, evalV tbl (sts 0) bp c = some v0 := by
      cases hev : evalV tbl (sts 0) bp c with
      | none => exact absurd hev hne
      | some w => exact ⟨w, rfl⟩
    have hv0ne : v0 ≠ 0 := by
      intro hcon
      rw [hcon] at hv0
      exact hn0 hv0
    obtain ⟨K1, hK1⟩ := ih (fun i => sts (i + 1)) (fun i => kb (i + 1)) hz
      (fun i hi => hnz (i + 1) (by omega))
      (fun i hi => hbody (i + 1) (by omega))
    refine ⟨(vcode tbl c).length + (1 + (kb 0 + (1 + K1))), ?_⟩
    rw [execN_add]
    have h1 := exec_vcode c hc tbl (sts 0) bp v0 hv0 P Pre
      (.BZ X :: (bc ++ [.JMP Pre.length] ++ P2)) [] Pre.length
      (by rw [hP]; simp) rfl
    simp only [List.append_nil] at h1
    rw [h1, Option.some_bind, execN_add, execN_one]
    have hfetchBZ : P[Pre.length + (vcode tbl c).length]? = some (.BZ X) := by
      have e1 : P = (Pre ++ vcode tbl c) ++
          .BZ X :: (bc ++ [.JMP Pre.length] ++ P2) := by rw [hP]; simp
      have e2 : Pre.length + (vcode tbl c).length =
          (Pre ++ vcode tbl c).length := by simp
      rw [e1, e2, fetch_at]
    have h2 : step (midState (sts 0 ++ [v0])
        (Pre.length + (vcode tbl c).length) bp P) =
        some (midState (sts 0) (Pre.length + (vcode tbl c).length + 1) bp P) := by
      rw [step_BZ_nonzero _ X (sts 0) v0 rfl hfetchBZ (by simp [midState]) hv0ne]
      simp [midState]
    rw [h2, Option.some_bind, execN_add]
    rw [hbody 0 h0, Option.some_bind, execN_add, execN_one]
    have hfetchJMP : P[Pre.length + (vcode tbl c).length + 1 + bc.length]? =
        some (.JMP Pre.length) := by
      have e1 : P = (Pre ++ vcode tbl c ++ [Instruction.BZ X] ++ bc) ++
          .JMP Pre.length :: P2 := by rw [hP]; simp
      have e2 : Pre.length + (vcode tbl c).length + 1 + bc.length =
          (Pre ++ vcode tbl c ++ [Instruction.BZ X] ++ bc).length := by
        simp
        omega
      rw [e1, e2, fetch_at]
    have h4 : step (midState (sts (0 + 1))
        (Pre.length + (vcode tbl c).length + 1 + bc.length) bp P) =
        some (midState (sts (0 + 1)) Pre.length bp P) := by
      rw [step_JMP _ Pre.length rfl hfetchJMP]
      simp [midState]
    rw [h4, Option.some_bind]
    exact hK1

/-- C5: first conjunct — for every compiled `While`, the emitted block
is the condition code at loop start, a branch-if-zero whose placeholder
is patched to the address immediately after the back-branch (the end of
the block), the body code, and an unconditional branch back to loop
start.  Second conjunct — execution of the block evaluates the
condition at loop start and repeats the body while the condition is
nonzero; for any iteration sequence whose condition eventually becomes
zero (at iteration `N`), the loop terminates, reaching the patched exit
address in finitely many steps. -/
theorem while_loop_behavior :
    (∀ (c : Expr) (bd : ASTNode) (g gout : GenState),
      generate_instructions_inner (.While c bd) g = .ok gout →
      ∃ (cc bc : List Instruction) (ps : List (Nat × String)),
        emit_expr c g.instructions g.symbolTable g.patches =
          .ok (g.instructions ++ cc, ps) ∧
        gout.instructions = g.instructions ++ cc ++
          (.BZ gout.instructions.length ::
            (bc ++ [.JMP g.instructions.length]))) ∧
    (∀ (c : Expr) (bd : ASTNode) (g gout : GenState),
      generate_instructions_inner (.While c bd) g = .ok gout →
      varExpr c = true →
      ∀ (P2 : List Instruction) (bp : Nat) (N : Nat) (sts : Nat → List Int)
        (kb : Nat → Nat),
        evalV g.symbolTable (sts N) bp c = some 0 →
        (∀ i, i < N → evalV g.symbolTable (sts i) bp c ≠ none ∧
          evalV g.symbolTable (sts i) bp c ≠ some 0) →
        (∀ i, i < N → execN (kb i)
          (midState (sts i)
            (g.instructions.length + (vcode g.symbolTable c).length + 1) bp
            (gout.instructions ++ P2)) =
          some (midState (sts (i + 1)) (gout.instructions.length - 1) bp
            (gout.instructions ++ P2))) →
        ∃ K, execN K
          (midState (sts 0) g.instructions.length bp
            (gout.instructions ++ P2)) =
          some (midState (sts N) gout.instructions.length bp
            (gout.instructions ++ P2))) := by
  constructor
  · intro c bd g gout hgen
    simp only [generate_instructions_inner] at hgen
    cases he : emit_expr c g.instructions g.symbolTable g.patches with
    | error msg => rw [he] at hgen; cases hgen
    | ok r1 =>
      obtain ⟨i1, p1⟩ := r1
      rw [he] at hgen
      dsimp only at hgen
      obtain ⟨t1, q1, e1, e2⟩ := emit_expr_extends _ _ _ _ _ he
      dsimp only at e1 e2
      subst e1
      subst e2
      cases hg2 : generate_instructions_inner bd
          { g with
            instructions := g.instructions ++ t1 ++ [.BZ 9999],
            patches := g.patches ++ q1 } with
      | error msg => rw [hg2] at hgen; cases hgen
      | ok g2 =>
        rw [hg2] at hgen
        dsimp only at hgen
        cases hgen
        obtain ⟨bc, e3⟩ := genInner_extends bd _ _ hg2
        dsimp only at e3
        have e3a : g2.instructions ++ [Instruction.JMP g.instructions.length] =
            (g.instructions ++ t1) ++
              (.BZ 9999 :: (bc ++ [.JMP g.instructions.length])) := by
          rw [e3]; simp
        have hmain : ∀ v : Instruction,
            (g2.instructions ++ [Instruction.JMP g.instructions.length]).set
              (g.instructions ++ t1).length v =
            (g.instructions ++ t1) ++
              (v :: (bc ++ [.JMP g.instructions.length])) := by
          intro v
          conv_lhs => rw [e3a]
          exact set_at_append _ _ _ _
        refine ⟨t1, bc, g.patches ++ q1, rfl, ?_⟩
        dsimp only
        rw [List.length_set, hmain]
  · intro c bd g gout hgen hc P2 bp N sts kb hz hnz hbody
    simp only [generate_instructions_inner] at hgen
    cases he : emit_expr c g.instructions g.symbolTable g.patches with
    | error msg => rw [he] at hgen; cases hgen
    | ok r1 =>
      obtain ⟨i1, p1⟩ := r1
      rw [he] at hgen
      dsimp only at hgen
      have hsh := emit_shape c hc _ _ _ _ he
      injection hsh with hi1 hp1
      subst hi1
      subst hp1
      cases hg2 : generate_instructions_inner bd
          { g with
            instructions := g.instructions ++ vcode g.symbolTable c ++
              [.BZ 9999],
            patches := g.patches } with
      | error msg => rw [hg2] at hgen; cases hgen
      | ok g2 =>
        rw [hg2] at hgen
        dsimp only at hgen
        cases hgen
        obtain ⟨bc, e3⟩ := genInner_extends bd _ _ hg2
        dsimp only at e3
        set vc := vcode g.symbolTable c with hvc
        have e3a : g2.instructions ++ [Instruction.JMP g.instructions.length] =
            (g.instructions ++ vc) ++
              (.BZ 9999 :: (bc ++ [.JMP g.instructions.length])) := by
          rw [e3]; simp
        have hmain : ∀ v : Instruction,
            (g2.instructions ++ [Instruction.JMP g.instructions.length]).set
              (g.instructions ++ vc).length v =
            (g.instructions ++ vc) ++
              (v :: (bc ++ [.JMP g.instructions.length])) := by
          intro v
          conv_lhs => rw [e3a]
          exact set_at_append _ _ _ _
        dsimp only at hz hnz hbody ⊢
        set L := (g2.instructions ++
          [Instruction.JMP g.instructions.length]).length with hLdef
        have hsetlen : ((g2.instructions ++
            [Instruction.JMP g.instructions.length]).set
              (g.instructions ++ vc).length (.BZ L)).length = L := by
          simp [hLdef]
        rw [List.length_set] at hbody ⊢
        rw [← hLdef] at hbody ⊢
        have hnew := hmain (.BZ L)
        rw [hnew] at hbody ⊢
        have hLval : L = g.instructions.length + vc.length + 1 + bc.length + 1 := by
          rw [hLdef, e3]
          simp
          omega
        have hP : (g.instructions ++ vc) ++
            (.BZ L :: (bc ++ [.JMP g.instructions.length])) ++ P2 =
            g.instructions ++ vc ++
              (.BZ L :: (bc ++ [.JMP g.instructions.length])) ++ P2 := by
          simp
        rw [hP] at hbody ⊢
        have hpos : L - 1 = g.instructions.length + vc.length + 1 + bc.length := by
          omega
        rw [hpos] at hbody
        exact while_runs_aux g.symbolTable c hc g.instructions bc P2 bp L _ rfl
          N sts kb hz hnz hbody

/-- Generator state after `int i = 2;`, just before the `While`. -/
def cdLoopGen : GenState :=
  ⟨[.ENT 0, .LEA 0, .IMM 2, .SI], [("i", 0)], 1, []⟩

/-- Generator state after compiling `while (i > 0) i = i - 1;`. -/
def cdLoopGenOut : GenState :=
  ⟨[.ENT 0, .LEA 0, .IMM 2, .SI, .LEA 0, .LI, .IMM 0, .GT, .BZ 16,
    .LEA 0, .LEA 0, .LI, .IMM 1, .SUB, .SI, .JMP 4], [("i", 0)], 1, []⟩

/-- The countdown program: the loop block followed by `return i;`. -/
def cdFullProg : List Instruction :=
  cdLoopGenOut.instructions ++ [.LEA 0, .LI, .PSH, .EXIT]

/-- C5 witness: the countdown loop `while (i > 0) i = i - 1;` compiled
after `int i = 2;` — the branch-if-zero is patched to 16, the address
right after the back-branch `JMP 4`, and the two-iteration run from the
loop head reaches that exit address with `i = 0`. -/
theorem while_loop_behavior_witness :
    generate_instructions_inner
      (.While (.Greater (.Var "i") (.Number 0))
        (.Assignment "i" (.Sub (.Var "i") (.Number 1)))) cdLoopGen =
      .ok cdLoopGenOut ∧
    (∃ (cc bc : List Instruction) (ps : List (Nat × String)),
      emit_expr (.Greater (.Var "i") (.Number 0))
        [.ENT 0, .LEA 0, .IMM 2, .SI] [("i", 0)] [] =
        .ok ([Instruction.ENT 0, .LEA 0, .IMM 2, .SI] ++ cc, ps) ∧
      cdLoopGenOut.instructions =
        [Instruction.ENT 0, .LEA 0, .IMM 2, .SI] ++ cc ++
          (.BZ 16 :: (bc ++ [.JMP 4]))) ∧
    (∃ K, execN K (midState [0, 2] 4 1 cdFullProg) =
      some (midState [0, 0] 16 1 cdFullProg)) := by
  refine ⟨by decide, ?_, ?_⟩
  · exact while_loop_behavior.1 (.Greater (.Var "i") (.Number 0))
      (.Assignment "i" (.Sub (.Var "i") (.Number 1))) cdLoopGen cdLoopGenOut
      (by decide)
  · exact while_loop_behavior.2 (.Greater (.Var "i") (.Number 0))
      (.Assignment "i" (.Sub (.Var "i") (.Number 1))) cdLoopGen cdLoopGenOut
      (by decide) (by decide) [.LEA 0, .LI, .PSH, .EXIT] 1 2
      (fun i => [0, Int.ofNat (2 - i)]) (fun _ => 6)
      (by decide) (by decide) (by decide)
